import Mathlib

/- Shallow embedding of the MTG_graphics graph-construction and visual-encoding
   engine: the configuration constants of src/config.py, the scaling library,
   color law, radial layout and graph builder of src/graph_build.py, and the
   client-side viewpoint re-projection functions (winrateColor, edgeWidthScale,
   applyCenterEdgeEncoding) embedded as JavaScript in src/render_html.py.

   Modelling conventions: Python/JS floating-point numbers are modelled by ℝ
   (the claims settled here have margins far larger than double rounding
   error), match counts by ℤ, winrates by ℚ (every winrate literal occurring
   in the claims is rational), archetype names by String.  Python `round`
   rounds half to even (pyRound below); JavaScript `Math.round` is ⌊x + 1/2⌋,
   which is Mathlib's `round`.  Colors are modelled as 24-bit RGB triples;
   the hex-string formatting of graph_build.py and the "rgb(r,g,b)" formatting
   of render_html.py are presentation-only and not modelled, as are the other
   formatted tooltip/label strings (`title`, `label`).  pandas dataframes are
   modelled as lists of records in row order. -/

namespace MTG

/- Configuration constants from src/config.py (graph coverage, visual scaling
   and radial layout sections). -/

def MIN_MATCHES_EDGE : ℤ := 1

def EPS_TIE : ℚ := 0.005

def HIDE_ISOLATED_NODES : Bool := false

def TOP_N_ARCHETYPES : ℕ := 35

noncomputable def NODE_SIZE_MIN : ℝ := 6

noncomputable def NODE_SIZE_MAX : ℝ := 40

noncomputable def EDGE_WIDTH_MIN : ℝ := 0.2

noncomputable def EDGE_WIDTH_MAX : ℝ := 16

def RING_COUNT : ℕ := 5

noncomputable def RING_RADIUS_BASE : ℝ := 260

noncomputable def RING_RADIUS_STEP : ℝ := 220

/- Scaling library, src/graph_build.py lines 25-66.  Python's math.log10 and
   math.sqrt raise ValueError on non-positive (resp. negative) input, and
   0.0 ** p raises ZeroDivisionError for p < 0; Real.logb / Real.sqrt / rpow
   instead return junk values there.  Every claim settled below either
   restricts to the regime where the Real functions agree exactly with the
   Python ones, or (the C7 counterexample) exercises an input on which the
   Python calls succeed, so no conclusion depends on a junk value. -/

noncomputable def clamp (x lo hi : ℝ) : ℝ := max lo (min hi x)

noncomputable def scale_log (value vmin vmax out_min out_max : ℝ) : ℝ :=
  if value ≤ 0 then out_min
  else
    let v := clamp value vmin vmax
    let a : ℝ := if 0 < vmin then Real.logb 10 vmin else 0
    let b : ℝ := if 0 < vmax then Real.logb 10 vmax else 1
    let x : ℝ := if b ≠ a then (Real.logb 10 v - a) / (b - a) else 0
    out_min + x * (out_max - out_min)

noncomputable def scale_sqrt (value vmin vmax out_min out_max : ℝ) : ℝ :=
  if value ≤ 0 then out_min
  else
    let v := clamp value vmin vmax
    let a : ℝ := if 0 < vmin then Real.sqrt vmin else 0
    let b : ℝ := if 0 < vmax then Real.sqrt vmax else 1
    let x : ℝ := if b ≠ a then (Real.sqrt v - a) / (b - a) else 0
    out_min + x * (out_max - out_min)

noncomputable def scale_power (value vmin vmax out_min out_max power : ℝ) : ℝ :=
  if value ≤ 0 then out_min
  else
    let v := clamp value vmin vmax
    let x : ℝ := if vmax ≠ vmin then (v - vmin) / (vmax - vmin) else 0
    out_min + x ^ power * (out_max - out_min)

/- Python's built-in round: round half to even.  For non-ties it agrees with
   Mathlib's round (round to nearest); at a tie it picks the even neighbour. -/

noncomputable def pyRound (x : ℝ) : ℤ :=
  if Int.fract x = 1 / 2 then (if Even ⌊x⌋ then ⌊x⌋ else ⌊x⌋ + 1) else round x

/- Color law, src/graph_build.py lines 69-125.  _hex_to_rgb of the three
   anchor colors gives the triples below; colors are RGB triples of ℤ. -/

def RED : ℤ × ℤ × ℤ := (255, 0, 0)

def YEL : ℤ × ℤ × ℤ := (255, 255, 0)

def GRN : ℤ × ℤ × ℤ := (0, 255, 0)

noncomputable def lerp (a b t : ℝ) : ℝ := a + (b - a) * t

noncomputable def lerp_rgb (c1 c2 : ℤ × ℤ × ℤ) (t : ℝ) : ℤ × ℤ × ℤ :=
  (pyRound (lerp (c1.1 : ℝ) (c2.1 : ℝ) t),
   pyRound (lerp (c1.2.1 : ℝ) (c2.2.1 : ℝ) t),
   pyRound (lerp (c1.2.2 : ℝ) (c2.2.2 : ℝ) t))

/- winrate_to_color(wr, k=5.5, gamma=0.55); the Python default arguments are
   supplied explicitly at the call sites edge_winrate_color and
   node_winrate_color, the only callers in the program. -/

noncomputable def winrate_to_color (wr k gamma : ℝ) : ℤ × ℤ × ℤ :=
  let w := clamp wr 0 1
  if 0.5 ≤ w then
    let u := (w - 0.5) / 0.5
    let t := clamp (Real.tanh (k * u)) 0 1
    lerp_rgb YEL GRN (t ^ gamma)
  else
    let u := (0.5 - w) / 0.5
    let t := clamp (Real.tanh (k * u)) 0 1
    lerp_rgb YEL RED (t ^ gamma)

noncomputable def edge_winrate_color (wr : ℝ) : ℤ × ℤ × ℤ := winrate_to_color wr 5.5 0.55

noncomputable def node_winrate_color (wr : ℝ) : ℤ × ℤ × ℤ := winrate_to_color wr 5.5 0.55

/- Radial layout engine, src/graph_build.py lines 128-170
   (compute_radial_positions).  The input is the archetypes table projected to
   its (archetype, overall_matches) columns.  pandas sort_values uses an
   unstable quicksort; tie order among equal match counts is
   implementation-defined there and no claim depends on it, so a stable
   descending insertion sort is used.  The Python dict of positions is
   modelled as the association list of its insertions. -/

noncomputable def norm_log (vmin vmax m : ℝ) : ℝ :=
  let a := Real.logb 10 vmin
  let b := Real.logb 10 vmax
  if b = a then 0 else (Real.logb 10 (max m vmin) - a) / (b - a)

noncomputable def ring_index (vmin vmax m : ℝ) : ℤ :=
  let t := norm_log vmin vmax m
  let r := pyRound (t * ((RING_COUNT : ℝ) - 1))
  max 0 (min ((RING_COUNT : ℤ) - 1) r)

noncomputable def ringRadius (i : ℤ) : ℝ := RING_RADIUS_BASE + (i : ℝ) * RING_RADIUS_STEP

noncomputable def orderedArch (arch : List (String × ℤ)) : List (String × ℤ) :=
  List.insertionSort (fun p q : String × ℤ => q.2 ≤ p.2) arch

/- vmin = max(1.0, min(matches)), vmax = max(vmin + 1.0, max(matches)) over
   the sorted match counts; factored out of compute_radial_positions (the
   values on the empty table are irrelevant: the layout returns {} first). -/

noncomputable def vminOfL (arch : List (String × ℤ)) : ℝ :=
  match (orderedArch arch).map (fun p => ((p.2 : ℝ))) with
  | [] => 1
  | m0 :: mrest => max 1 (mrest.foldl min m0)

noncomputable def vmaxOfL (arch : List (String × ℤ)) : ℝ :=
  match (orderedArch arch).map (fun p => ((p.2 : ℝ))) with
  | [] => 2
  | m0 :: mrest => max (vminOfL arch + 1) (mrest.foldl max m0)

noncomputable def compute_radial_positions (arch : List (String × ℤ)) :
    List (String × ℝ × ℝ) :=
  if orderedArch arch = [] then []
  else
    (List.range RING_COUNT).flatMap (fun ri =>
      let ringNodes := (orderedArch arch).filter
        (fun p => ring_index (vminOfL arch) (vmaxOfL arch) (p.2 : ℝ) = (ri : ℤ))
      let count := ringNodes.length
      let radius := RING_RADIUS_BASE + (ri : ℝ) * RING_RADIUS_STEP
      let angleOffset := ((ri : ℝ) * Real.pi) / (max 1 (RING_COUNT : ℝ))
      ringNodes.enum.map (fun ip =>
        let angle := angleOffset + 2 * Real.pi * (ip.1 : ℝ) / (count : ℝ)
        (ip.2.1, (Real.cos angle * radius, Real.sin angle * radius))))

/- Graph builder, src/graph_build.py lines 173-311 (build_graph).  The
   dataframes are lists of row records; the networkx DiGraph is a node list
   plus an edge list where adding an already-present (src, dst) edge replaces
   its attributes in place (add_edge below).  networkx would also auto-insert
   missing endpoints, but every edge endpoint is filtered to the node set
   beforehand, so this never fires.  The ci_low/ci_high columns feed only the
   unmodelled tooltip string and are dropped. -/

structure ArchRow where
  archetype : String
  overall_matches : ℤ
  overall_winrate : Option ℚ
  url_relative : Option String
deriving DecidableEq, Repr

structure MatchRow where
  a : String
  b : String
  winrate_a_vs_b : ℚ
  matches' : ℤ
  ci_low : Option ℚ
  ci_high : Option ℚ
deriving DecidableEq, Repr

structure Node where
  name : String
  size : ℝ
  matches' : ℤ
  overall_winrate : Option ℚ
  url : Option String

structure Edge where
  src : String
  dst : String
  matches' : ℤ
  winrate : ℚ
  winrate_from : ℚ
  neutral : Bool
  width : ℝ
  color : ℤ × ℤ × ℤ
  arrows : String

structure Graph where
  nodes : List Node
  edges : List Edge

def full_url : Option String → Option String
  | some u => if u.startsWith ("/") then some ("https://mtgdecks.net" ++ u) else none
  | none => none

def archSorted (archetypes : List ArchRow) : List ArchRow :=
  let sorted := List.insertionSort
    (fun p q : ArchRow => q.overall_matches ≤ p.overall_matches) archetypes
  if 0 < TOP_N_ARCHETYPES then sorted.take TOP_N_ARCHETYPES else sorted

def topNames (archetypes : List ArchRow) : List String :=
  (archSorted archetypes).map (fun r => r.archetype)

def filteredM (archetypes : List ArchRow) (matchups : List MatchRow) : List MatchRow :=
  matchups.filter (fun r =>
    decide (MIN_MATCHES_EDGE ≤ r.matches') && (topNames archetypes).contains r.a
      && (topNames archetypes).contains r.b)

/- Python string comparison: lexicographic on code points.  (Lean's built-in
   String order is definitionally opaque to the kernel, so the code-point
   comparison is spelled out structurally on the character lists.) -/
def charsLe : List Char → List Char → Bool
  | [], _ => true
  | _ :: _, [] => false
  | c :: cs, d :: ds => if c < d then true else if d < c then false else charsLe cs ds

/- tuple(sorted([a, b])) on two strings. -/
def pairKey (a b : String) : String × String :=
  if charsLe a.data b.data then (a, b) else (b, a)

def isNeutral (wr : ℚ) : Bool := decide (|wr - 1/2| ≤ EPS_TIE)

def add_edge (es : List Edge) (e : Edge) : List Edge :=
  if es.any (fun x => x.src = e.src && x.dst = e.dst) then
    es.map (fun x => if x.src = e.src ∧ x.dst = e.dst then e else x)
  else es ++ [e]

structure BuildSt where
  seen : List (String × String)
  edges : List Edge

noncomputable def build_step (m : List MatchRow) (m_min m_max : ℝ)
    (st : BuildSt) (r : MatchRow) : BuildSt :=
  if r.a = r.b then st
  else if st.seen.contains (pairKey r.a r.b) then st
  else
    let seen := st.seen ++ [pairKey r.a r.b]
    let ab := m.filter (fun q => q.a = r.a && q.b = r.b)
    let ba := m.filter (fun q => q.a = r.b && q.b = r.a)
    let data : Option (ℚ × ℤ) :=
      match ab with
      | q :: _ => some (q.winrate_a_vs_b, q.matches')
      | [] =>
        match ba with
        | q :: _ => some (1 - q.winrate_a_vs_b, q.matches')
        | [] => none
    match data with
    | none => { seen := seen, edges := st.edges }
    | some (wr_ab, matches') =>
      let width := scale_power (matches' : ℝ) m_min m_max EDGE_WIDTH_MIN EDGE_WIDTH_MAX 3.5
      if isNeutral wr_ab then
        { seen := seen,
          edges := add_edge st.edges
            { src := r.a, dst := r.b, matches' := matches', winrate := wr_ab,
              winrate_from := 1/2, neutral := true, width := width,
              color := edge_winrate_color ((0.5 : ℝ)), arrows := "" } }
      else
        let src := if 1/2 < wr_ab then r.a else r.b
        let dst := if 1/2 < wr_ab then r.b else r.a
        let wr := if 1/2 < wr_ab then wr_ab else 1 - wr_ab
        { seen := seen,
          edges := add_edge st.edges
            { src := src, dst := dst, matches' := matches', winrate := wr,
              winrate_from := wr, neutral := false, width := width,
              color := edge_winrate_color ((wr : ℝ)), arrows := "to" } }

noncomputable def build_edges (m : List MatchRow) (m_min m_max : ℝ) : List Edge :=
  (m.foldl (build_step m m_min m_max) ⟨[], []⟩).edges

/- The edge-width domain of the filtered matchup set (lines 215-218 of
   graph_build.py): floored at MIN_MATCHES_EDGE, widened to a non-degenerate
   interval. -/

noncomputable def mMinOf (archetypes : List ArchRow) (matchups : List MatchRow) : ℝ :=
  let m := filteredM archetypes matchups
  if m.isEmpty then (MIN_MATCHES_EDGE : ℝ)
  else ((max MIN_MATCHES_EDGE (((m.map (fun r => r.matches')).min?).getD MIN_MATCHES_EDGE) : ℤ) : ℝ)

noncomputable def mMaxOf (archetypes : List ArchRow) (matchups : List MatchRow) : ℝ :=
  let m := filteredM archetypes matchups
  let m_max0 : ℝ := if m.isEmpty then (MIN_MATCHES_EDGE : ℝ)
    else ((((m.map (fun r => r.matches')).max?).getD MIN_MATCHES_EDGE : ℤ) : ℝ)
  if m_max0 ≤ mMinOf archetypes matchups then mMinOf archetypes matchups + 1 else m_max0

/- pandas `.min()` / `.max()` on an empty column give NaN, and the source's
   `int(...)` conversion of that NaN raises ValueError; build_graph therefore
   returns an error when the (top-N of the) archetypes table is empty. -/

noncomputable def build_graph (archetypes : List ArchRow) (matchups : List MatchRow) :
    Except String Graph :=
  let arch_sorted := archSorted archetypes
  match (arch_sorted.map (fun r => r.overall_matches)).min?,
      (arch_sorted.map (fun r => r.overall_matches)).max? with
  | some mn, some mx =>
    let vmin : ℤ := max 1 mn
    let vmax : ℤ := max (vmin + 1) mx
    let nodes : List Node := arch_sorted.map (fun r =>
      { name := r.archetype
        size := scale_sqrt (r.overall_matches : ℝ) (vmin : ℝ) (vmax : ℝ)
          NODE_SIZE_MIN NODE_SIZE_MAX
        matches' := r.overall_matches
        overall_winrate := r.overall_winrate
        url := full_url r.url_relative })
    let m := filteredM archetypes matchups
    let G : Graph := { nodes := nodes
                       edges := build_edges m (mMinOf archetypes matchups)
                         (mMaxOf archetypes matchups) }
    Except.ok (if HIDE_ISOLATED_NODES then
      { nodes := G.nodes.filter (fun n => G.edges.any (fun e => e.src = n.name || e.dst = n.name)),
        edges := G.edges }
      else G)
  | _, _ => Except.error ("ValueError: cannot convert float NaN to integer")

def edgesOf (g : Except String Graph) : List Edge :=
  match g with
  | Except.ok G => G.edges
  | Except.error _ => []

/- Client-side viewpoint re-projection, src/render_html.py.  winrateColor
   (lines 617-645) and edgeWidthScale (lines 647-658) are the JavaScript
   re-implementations of the color law and of a local width scale;
   applyCenterEdgeEncoding (lines 1210-1271) re-encodes every visible edge
   incident to the focused node.  JS numbers are ℝ; the vis-network edge
   objects are VEdge records and the in-place array mutation is a map. -/

structure VEdge where
  efrom : String
  eto : String
  matches' : Option ℤ
  winrate : ℚ
  winrate_from : Option ℚ
  neutral : Bool
  hidden : Bool
  width : ℝ
  color : ℤ × ℤ × ℤ
  arrows : String
  wr_center : Option ℚ

noncomputable def winrateColor (wr : ℝ) : ℤ × ℤ × ℤ :=
  let x := max 0 (min 1 wr)
  let k : ℝ := 8.5
  let gamma : ℝ := 0.45
  if 0.5 ≤ x then
    let u := (x - 0.5) / 0.5
    let t := (max 0 (min 1 (Real.tanh (k * u)))) ^ gamma
    (round ((255 : ℝ) + ((0 : ℝ) - 255) * t), round ((255 : ℝ) + ((255 : ℝ) - 255) * t),
     round ((0 : ℝ) + ((0 : ℝ) - 0) * t))
  else
    let u := (0.5 - x) / 0.5
    let t := (max 0 (min 1 (Real.tanh (k * u)))) ^ gamma
    (round ((255 : ℝ) + ((255 : ℝ) - 255) * t), round ((255 : ℝ) + ((0 : ℝ) - 255) * t),
     round ((0 : ℝ) + ((0 : ℝ) - 0) * t))

noncomputable def edgeWidthScale (matches' minM maxM : ℝ) : ℝ :=
  if matches' ≤ 0 then 0.6
  else if maxM ≤ minM then (0.6 + 10.0) / 2
  else
    let x := (Real.logb 10 matches' - Real.logb 10 minM) /
      (Real.logb 10 maxM - Real.logb 10 minM)
    0.6 + max 0 (min 1 x) * (10.0 - 0.6)

/- The match counts that enter the local min/max scan: visible edges incident
   to the center whose matches value is a positive number. -/
def localMatches (es : List VEdge) (c : String) : List ℤ :=
  (es.filter (fun e => !e.hidden && (e.efrom = c || e.eto = c))).filterMap
    (fun e => let mm := e.matches'.getD 0; if 0 < mm then some mm else none)

noncomputable def applyCenterEdgeEncoding (es : List VEdge) (c : String) : List VEdge :=
  let pos := localMatches es c
  let minM : ℝ := match pos.min? with | some v => (v : ℝ) | none => 0
  let maxM : ℝ := match pos.max? with | some v => (v : ℝ) | none => 1
  es.map (fun e =>
    if e.hidden then e
    else if e.efrom ≠ c ∧ e.eto ≠ c then e
    else
      let mm2 : ℤ := e.matches'.getD 0
      let width := edgeWidthScale (mm2 : ℝ) minM maxM
      let wf : ℚ := e.winrate_from.getD (1/2)
      let win : ℚ := if e.neutral then 1/2
        else if e.efrom = c then wf
        else if e.eto = c then 1 - wf
        else 1/2
      let color := winrateColor ((win : ℝ))
      let other := if e.efrom = c then e.eto else e.efrom
      if |win - 1/2| ≤ 0.005 then
        { e with
          efrom := c
          eto := other
          arrows := ""
          width := width
          color := color
          wr_center := some win }
      else if 1/2 < win then
        { e with
          efrom := c
          eto := other
          arrows := "to"
          width := width
          color := color
          wr_center := some win }
      else
        { e with
          efrom := other
          eto := c
          arrows := "to"
          width := width
          color := color
          wr_center := some win })

/- Concrete test fixtures used by the claim theorems, witnesses and
   counterexamples below. -/

def archsXY : List ArchRow := [⟨"X", 100, none, none⟩, ⟨"Y", 100, none, none⟩]

def msC3 : List MatchRow := [⟨"Y", "X", 7/10, 100, none, none⟩]

def msC6a : List MatchRow := [⟨"X", "Y", 0.504, 50, none, none⟩]

def msC6b : List MatchRow := [⟨"X", "Y", 0.506, 50, none, none⟩]

def msC6c : List MatchRow := [⟨"X", "Y", 0.505, 50, none, none⟩]

/- Client-side edge fixtures: a visible non-neutral edge as the serializer
   would deliver it. -/
def vedge (f t : String) (m : ℤ) : VEdge :=
  { efrom := f
    eto := t
    matches' := some m
    winrate := 7/10
    winrate_from := some (7/10)
    neutral := false
    hidden := false
    width := 1
    color := (0, 0, 0)
    arrows := "to"
    wr_center := none }

def archC2 : List (String × ℤ) := [("A", 1000), ("B", 1)]

def esC9cx : List VEdge := [vedge "C" "A" 500, vedge "C" "B" 500]

def esC9 : List VEdge :=
  [vedge "C" "A" 10, vedge "C" "B" 1000, vedge "D" "E" 1000000]

def projEdge (e : Edge) : String × String × ℚ × ℤ × Bool × String :=
  (e.src, e.dst, e.winrate, e.matches', e.neutral, e.arrows)

/- An edge lies on the unordered pair a, b (in either orientation). -/
def touches (a b : String) (e : Edge) : Bool :=
  (e.src == a && e.dst == b) || (e.src == b && e.dst == a)

/- The orientation property claimed for every edge of the built graph: no
   self-loop, and a non-neutral edge stores the favored side's winrate
   (strictly above 1/2), equal to its winrate_from, with an arrowhead. -/
def EdgeOK (e : Edge) : Prop :=
  e.src ≠ e.dst
    ∧ (e.neutral = false → 1/2 < e.winrate ∧ e.winrate_from = e.winrate ∧ e.arrows = "to")

/- IEEE-754 binary64 model on exact rationals, for the winrates and the
   tie epsilon that the program actually manipulates.  A finite positive
   double in the normal range is m * 2^(e-52) with 2^52 ≤ m < 2^53 and
   e = ⌊log2 x⌋; rounding a real (here: rational) input to the nearest
   double rounds the scaled significand to the nearest integer, ties to
   even.  Overflow and subnormals are irrelevant for the values involved
   (all lie well inside the normal range). -/

def rndHalfEven (q : ℚ) : ℤ :=
  if Int.fract q = 1 / 2 then (if Even ⌊q⌋ then ⌊q⌋ else ⌊q⌋ + 1) else round q

def roundToGrid (s : ℤ) (q : ℚ) : ℚ := (rndHalfEven (q * 2 ^ (-s)) : ℚ) * 2 ^ s

def float64 (q : ℚ) : ℚ :=
  if q = 0 then 0
  else if 0 < q then roundToGrid (Int.log 2 q - 52) q
  else - roundToGrid (Int.log 2 (-q) - 52) (-q)

/- The neutrality test of graph_build.py line 256, neutral = abs(wr_ab - 0.5)
   <= EPS_TIE, as executed in binary64: wr_ab is already a double, the
   literals 0.5 and 0.005 are the doubles nearest those decimals, the
   subtraction is correctly rounded, abs and the comparison are exact. -/

def isNeutralF (wr : ℚ) : Bool :=
  decide (|float64 (wr - float64 (1 / 2))| ≤ float64 EPS_TIE)

section Theorems

/- Evaluation of the builder on the concrete fixtures. -/

lemma edges_eval_C3 : (edgesOf (build_graph archsXY msC3)).map projEdge
    = [("Y", "X", 7/10, 100, false, "to")] := by
  norm_num [build_graph, archSorted, List.insertionSort, List.orderedInsert, topNames,
    filteredM, MIN_MATCHES_EDGE, TOP_N_ARCHETYPES, build_edges, build_step, pairKey,
    charsLe, isNeutral, EPS_TIE, add_edge, edgesOf, List.min?, List.max?, List.foldl,
    List.filter, List.contains, List.elem, HIDE_ISOLATED_NODES, abs_of_pos, abs_of_neg,
    abs_of_nonneg, archsXY, msC3]
  simp +decide [projEdge]

lemma edges_eval_C6a : (edgesOf (build_graph archsXY msC6a)).map
    (fun e => (e.src, e.dst, e.neutral, e.arrows)) = [("X", "Y", true, "")] := by
  norm_num [build_graph, archSorted, List.insertionSort, List.orderedInsert, topNames,
    filteredM, MIN_MATCHES_EDGE, TOP_N_ARCHETYPES, build_edges, build_step, pairKey,
    charsLe, isNeutral, EPS_TIE, add_edge, edgesOf, List.min?, List.max?, List.foldl,
    List.filter, List.contains, List.elem, HIDE_ISOLATED_NODES, abs_of_pos, abs_of_neg,
    abs_of_nonneg, archsXY, msC6a]
  simp +decide

lemma edges_eval_C6b : (edgesOf (build_graph archsXY msC6b)).map
    (fun e => (e.src, e.dst, e.neutral, e.arrows)) = [("X", "Y", false, "to")] := by
  norm_num [build_graph, archSorted, List.insertionSort, List.orderedInsert, topNames,
    filteredM, MIN_MATCHES_EDGE, TOP_N_ARCHETYPES, build_edges, build_step, pairKey,
    charsLe, isNeutral, EPS_TIE, add_edge, edgesOf, List.min?, List.max?, List.foldl,
    List.filter, List.contains, List.elem, HIDE_ISOLATED_NODES, abs_of_pos, abs_of_neg,
    abs_of_nonneg, archsXY, msC6b]
  simp +decide

lemma edges_eval_C6c : (edgesOf (build_graph archsXY msC6c)).map
    (fun e => (e.src, e.dst, e.neutral, e.arrows)) = [("X", "Y", true, "")] := by
  norm_num [build_graph, archSorted, List.insertionSort, List.orderedInsert, topNames,
    filteredM, MIN_MATCHES_EDGE, TOP_N_ARCHETYPES, build_edges, build_step, pairKey,
    charsLe, isNeutral, EPS_TIE, add_edge, edgesOf, List.min?, List.max?, List.foldl,
    List.filter, List.contains, List.elem, HIDE_ISOLATED_NODES, abs_of_pos, abs_of_neg,
    abs_of_nonneg, archsXY, msC6c]
  simp +decide

/- Order lemmas for the code-point string comparison and the pair key. -/

lemma charsLe_total : ∀ l1 l2 : List Char, charsLe l1 l2 = true ∨ charsLe l2 l1 = true := by
  intro l1
  induction l1 with
  | nil => intro l2; left; rfl
  | cons c cs ih =>
    intro l2
    cases l2 with
    | nil => right; rfl
    | cons d ds =>
      rcases lt_trichotomy c d with h | h | h
      · left; simp [charsLe, h]
      · subst h
        rcases ih ds with h2 | h2
        · left; simp [charsLe, lt_irrefl, h2]
        · right; simp [charsLe, lt_irrefl, h2]
      · right; simp [charsLe, h]

lemma charsLe_antisymm : ∀ l1 l2 : List Char,
    charsLe l1 l2 = true → charsLe l2 l1 = true → l1 = l2 := by
  intro l1
  induction l1 with
  | nil =>
    intro l2 _ h2
    cases l2 with
    | nil => rfl
    | cons d ds => simp [charsLe] at h2
  | cons c cs ih =>
    intro l2 h1 h2
    cases l2 with
    | nil => simp [charsLe] at h1
    | cons d ds =>
      rcases lt_trichotomy c d with h | h | h
      · simp [charsLe, h, lt_asymm h] at h2
      · subst h
        simp only [charsLe, lt_irrefl, if_false] at h1 h2
        exact congrArg (c :: ·) (ih ds h1 h2)
      · simp [charsLe, h, lt_asymm h] at h1

lemma pairKey_comm (a b : String) : pairKey a b = pairKey b a := by
  unfold pairKey
  by_cases h1 : charsLe a.data b.data = true
  · by_cases h2 : charsLe b.data a.data = true
    · have hab : a = b := by
        apply String.ext
        exact charsLe_antisymm _ _ h1 h2
      subst hab; rfl
    · simp [h1, h2]
  · rcases charsLe_total a.data b.data with h | h
    · exact absurd h h1
    · simp [h1, h]

lemma pairKey_mem (a b : String) : pairKey a b = (a, b) ∨ pairKey a b = (b, a) := by
  unfold pairKey
  split_ifs
  · left; rfl
  · right; rfl

lemma pairKey_eq_iff (x y a b : String) :
    pairKey x y = pairKey a b ↔ ((x = a ∧ y = b) ∨ (x = b ∧ y = a)) := by
  constructor
  · intro h
    rcases pairKey_mem x y with hx | hx <;> rcases pairKey_mem a b with ha | ha <;>
      rw [hx, ha] at h <;> rw [Prod.mk.injEq] at h
    · exact Or.inl h
    · exact Or.inr h
    · exact Or.inr ⟨h.2, h.1⟩
    · exact Or.inl ⟨h.2, h.1⟩
  · rintro (⟨rfl, rfl⟩ | ⟨rfl, rfl⟩)
    · rfl
    · exact pairKey_comm x y

lemma touches_iff (a b : String) (e : Edge) :
    touches a b e = true ↔ pairKey e.src e.dst = pairKey a b := by
  rw [pairKey_eq_iff]
  simp [touches]

/- The deduplication loop: one step preserves the edge/count invariants. -/

lemma countP_append_singleton (p : Edge → Bool) (es : List Edge) (e : Edge) :
    (es ++ [e]).countP p = es.countP p + if p e then 1 else 0 := by
  rw [List.countP_append]
  by_cases h : p e <;> simp [List.countP_cons, h]

lemma add_edge_of_count_zero {es : List Edge} {e : Edge} (a b : String)
    (hsd : (e.src = a ∧ e.dst = b) ∨ (e.src = b ∧ e.dst = a))
    (h0 : es.countP (touches a b) = 0) :
    add_edge es e = es ++ [e] := by
  unfold add_edge
  have hany : (es.any fun x => decide (x.src = e.src) && decide (x.dst = e.dst)) = false := by
    rw [List.any_eq_false]
    intro x hx hmatch
    rw [Bool.and_eq_true, decide_eq_true_eq, decide_eq_true_eq] at hmatch
    have hpe : pairKey e.src e.dst = pairKey a b := (pairKey_eq_iff _ _ _ _).mpr hsd
    have htx : touches a b x = true := by
      rw [touches_iff, hmatch.1, hmatch.2]
      exact hpe
    exact absurd htx (List.countP_eq_zero.mp h0 x hx)
  rw [hany]
  simp

lemma step_append_inv (st_seen : List (String × String)) (es : List Edge)
    (e : Edge) (ra rb ra' rb' : String) (K : String × String)
    (hK : pairKey ra rb = K) (hK2 : pairKey ra' rb' = K)
    (hsd : (e.src = ra ∧ e.dst = rb) ∨ (e.src = rb ∧ e.dst = ra))
    (hok : EdgeOK e)
    (hnotmem : K ∉ st_seen)
    (h1 : ∀ x ∈ es, EdgeOK x ∧ pairKey x.src x.dst ∈ st_seen)
    (h2 : ∀ a b : String, a ≠ b →
      es.countP (touches a b) = if pairKey a b ∈ st_seen then 1 else 0) :
    (∀ x ∈ es ++ [e], EdgeOK x ∧ pairKey x.src x.dst ∈ st_seen ++ [K])
    ∧ (∀ a b : String, a ≠ b → (es ++ [e]).countP (touches a b)
        = if pairKey a b ∈ st_seen ++ [K] then 1 else 0)
    ∧ (ra' ≠ rb' → pairKey ra' rb' ∈ st_seen ++ [K])
    ∧ (∀ k ∈ st_seen, k ∈ st_seen ++ [K]) := by
  have hpe : pairKey e.src e.dst = K := ((pairKey_eq_iff _ _ _ _).mpr hsd).trans hK
  refine ⟨?_, ?_, fun _ => ?_, fun k hk => List.mem_append_left _ hk⟩
  · intro x hx
    rcases List.mem_append.mp hx with hold | hnew
    · exact ⟨(h1 x hold).1, List.mem_append_left _ (h1 x hold).2⟩
    · rw [List.mem_singleton] at hnew
      subst hnew
      refine ⟨hok, ?_⟩
      rw [hpe]
      exact List.mem_append_right _ (List.mem_singleton.mpr rfl)
  · intro a b hne
    rw [countP_append_singleton]
    by_cases hKeq : pairKey a b = K
    · have ht : touches a b e = true := (touches_iff a b e).mpr (hpe.trans hKeq.symm)
      rw [ht, h2 a b hne, if_neg (fun hmem => hnotmem (hKeq ▸ hmem))]
      rw [if_pos (List.mem_append_right _ (List.mem_singleton.mpr hKeq))]
      norm_num
    · have ht : touches a b e = false := by
        cases htb : touches a b e
        · rfl
        · exact absurd (((touches_iff a b e).mp htb).symm.trans hpe) hKeq
      rw [ht, h2 a b hne]
      have hiff : (pairKey a b ∈ st_seen ++ [K]) ↔ pairKey a b ∈ st_seen := by
        simp [List.mem_append, hKeq]
      simp [hiff]
  · rw [hK2]
    exact List.mem_append_right _ (List.mem_singleton.mpr rfl)

lemma build_step_inv (m : List MatchRow) (m_min m_max : ℝ) (st : BuildSt) (r : MatchRow)
    (hr : r ∈ m)
    (h1 : ∀ e ∈ st.edges, EdgeOK e ∧ pairKey e.src e.dst ∈ st.seen)
    (h2 : ∀ a b : String, a ≠ b →
      st.edges.countP (touches a b) = if pairKey a b ∈ st.seen then 1 else 0) :
    (∀ e ∈ (build_step m m_min m_max st r).edges,
        EdgeOK e ∧ pairKey e.src e.dst ∈ (build_step m m_min m_max st r).seen)
    ∧ (∀ a b : String, a ≠ b →
        (build_step m m_min m_max st r).edges.countP (touches a b)
          = if pairKey a b ∈ (build_step m m_min m_max st r).seen then 1 else 0)
    ∧ (r.a ≠ r.b → pairKey r.a r.b ∈ (build_step m m_min m_max st r).seen)
    ∧ (∀ k ∈ st.seen, k ∈ (build_step m m_min m_max st r).seen) := by
  by_cases hab : r.a = r.b
  · simp only [build_step, if_pos hab]
    exact ⟨h1, h2, fun h => absurd hab h, fun k hk => hk⟩
  by_cases hcont : st.seen.contains (pairKey r.a r.b)
  · simp only [build_step, if_neg hab, if_pos hcont]
    exact ⟨h1, h2, fun _ => List.elem_iff.mp hcont, fun k hk => hk⟩
  have hnotmem : pairKey r.a r.b ∉ st.seen := fun hmem => hcont (List.elem_iff.mpr hmem)
  have h0 : st.edges.countP (touches r.a r.b) = 0 := by
    rw [h2 r.a r.b hab, if_neg hnotmem]
  have hrfilter : r ∈ m.filter (fun q => decide (q.a = r.a) && decide (q.b = r.b)) := by
    rw [List.mem_filter]
    exact ⟨hr, by simp⟩
  cases habl : m.filter (fun q => decide (q.a = r.a) && decide (q.b = r.b)) with
  | nil =>
    rw [habl] at hrfilter
    exact absurd hrfilter (List.not_mem_nil r)
  | cons q qs =>
    simp only [build_step, if_neg hab, if_neg hcont, habl]
    by_cases hneu : isNeutral q.winrate_a_vs_b
    · simp only [if_pos hneu]
      rw [add_edge_of_count_zero r.a r.b (Or.inl ⟨rfl, rfl⟩) h0]
      refine step_append_inv st.seen st.edges _ r.a r.b r.a r.b
        (pairKey r.a r.b) rfl rfl ?_ ?_ hnotmem h1 h2
      · exact Or.inl ⟨rfl, rfl⟩
      · exact ⟨hab, fun hf => nomatch hf⟩
    · simp only [if_neg hneu]
      by_cases hgt : (1:ℚ)/2 < q.winrate_a_vs_b
      · simp only [if_pos hgt]
        rw [add_edge_of_count_zero r.a r.b (Or.inl ⟨rfl, rfl⟩) h0]
        refine step_append_inv st.seen st.edges _ r.a r.b r.a r.b
          (pairKey r.a r.b) rfl rfl ?_ ?_ hnotmem h1 h2
        · exact Or.inl ⟨rfl, rfl⟩
        · exact ⟨hab, fun _ => ⟨hgt, rfl, rfl⟩⟩
      · simp only [if_neg hgt]
        have hwr : (1:ℚ)/2 < 1 - q.winrate_a_vs_b := by
          have heps : ¬ (|q.winrate_a_vs_b - 1/2| ≤ EPS_TIE) := by
            simpa [isNeutral] using hneu
          rw [not_le] at heps
          have hle : q.winrate_a_vs_b ≤ 1/2 := le_of_not_lt hgt
          rw [abs_of_nonpos (by linarith)] at heps
          have hEPS : (EPS_TIE : ℚ) = 5/1000 := by norm_num [EPS_TIE]
          rw [hEPS] at heps
          linarith
        rw [add_edge_of_count_zero r.a r.b (Or.inr ⟨rfl, rfl⟩) h0]
        refine step_append_inv st.seen st.edges _ r.b r.a r.a r.b
          (pairKey r.a r.b) (pairKey_comm r.b r.a) rfl ?_ ?_ hnotmem h1 h2
        · exact Or.inl ⟨rfl, rfl⟩
        · exact ⟨fun h => hab h.symm, fun _ => ⟨hwr, rfl, rfl⟩⟩

lemma build_loop_inv (m : List MatchRow) (m_min m_max : ℝ) :
    ∀ (l : List MatchRow) (st : BuildSt),
      (∀ r ∈ l, r ∈ m) →
      (∀ e ∈ st.edges, EdgeOK e ∧ pairKey e.src e.dst ∈ st.seen) →
      (∀ a b : String, a ≠ b →
        st.edges.countP (touches a b) = if pairKey a b ∈ st.seen then 1 else 0) →
      (∀ e ∈ (List.foldl (build_step m m_min m_max) st l).edges,
          EdgeOK e ∧ pairKey e.src e.dst ∈ (List.foldl (build_step m m_min m_max) st l).seen)
      ∧ (∀ a b : String, a ≠ b →
          (List.foldl (build_step m m_min m_max) st l).edges.countP (touches a b)
            = if pairKey a b ∈ (List.foldl (build_step m m_min m_max) st l).seen then 1 else 0)
      ∧ (∀ r ∈ l, r.a ≠ r.b →
          pairKey r.a r.b ∈ (List.foldl (build_step m m_min m_max) st l).seen)
      ∧ (∀ k ∈ st.seen, k ∈ (List.foldl (build_step m m_min m_max) st l).seen) := by
  intro l
  induction l with
  | nil =>
    intro st _ h1 h2
    exact ⟨h1, h2, fun r hr => absurd hr (List.not_mem_nil r), fun k hk => hk⟩
  | cons r rest ih =>
    intro st hl h1 h2
    have hr : r ∈ m := hl r (List.mem_cons_self r rest)
    obtain ⟨s1, s2, s3, s4⟩ := build_step_inv m m_min m_max st r hr h1 h2
    have hrest : ∀ x ∈ rest, x ∈ m := fun x hx => hl x (List.mem_cons_of_mem r hx)
    obtain ⟨c1, c2, c3, c4⟩ := ih (build_step m m_min m_max st r) hrest s1 s2
    rw [List.foldl_cons]
    refine ⟨c1, c2, ?_, fun k hk => c4 k (s4 k hk)⟩
    intro x hx hxab
    rcases List.mem_cons.mp hx with hx1 | hx2
    · subst hx1
      exact c4 _ (s3 hxab)
    · exact c3 x hx2 hxab

lemma build_edges_inv (m : List MatchRow) (m_min m_max : ℝ) :
    (∀ e ∈ build_edges m m_min m_max, EdgeOK e)
    ∧ (∀ a b : String, a ≠ b →
        (∃ r ∈ m, (r.a = a ∧ r.b = b) ∨ (r.a = b ∧ r.b = a)) →
        (build_edges m m_min m_max).countP (touches a b) = 1) := by
  obtain ⟨c1, c2, c3, c4⟩ := build_loop_inv m m_min m_max m ⟨[], []⟩ (fun r hr => hr)
    (fun e he => absurd he (List.not_mem_nil e))
    (fun a b _ => by simp)
  unfold build_edges
  constructor
  · intro e he
    exact (c1 e he).1
  · rintro a b hne ⟨r, hrm, hror⟩
    have hKr : pairKey r.a r.b = pairKey a b := by
      rcases hror with ⟨ha, hb⟩ | ⟨ha, hb⟩
      · rw [ha, hb]
      · rw [ha, hb]
        exact pairKey_comm b a
    have hrab : r.a ≠ r.b := by
      rcases hror with ⟨ha, hb⟩ | ⟨ha, hb⟩
      · rw [ha, hb]; exact hne
      · rw [ha, hb]; exact hne.symm
    have hmem := c3 r hrm hrab
    rw [hKr] at hmem
    rw [c2 a b hne, if_pos hmem]

lemma build_edges_self_zero (m : List MatchRow) (m_min m_max : ℝ) (a : String) :
    (build_edges m m_min m_max).countP (touches a a) = 0 := by
  rw [List.countP_eq_zero]
  intro e he ht
  have hok := (build_edges_inv m m_min m_max).1 e he
  simp [touches] at ht
  exact hok.1 (ht.1.trans ht.2.symm)

lemma filteredM_of_empty {archetypes : List ArchRow} (h : archSorted archetypes = [])
    (matchups : List MatchRow) : filteredM archetypes matchups = [] := by
  unfold filteredM topNames
  rw [h]
  simp

lemma edgesOf_build_graph (archetypes : List ArchRow) (matchups : List MatchRow) :
    (archSorted archetypes = [] ∧ edgesOf (build_graph archetypes matchups) = [])
    ∨ edgesOf (build_graph archetypes matchups)
        = build_edges (filteredM archetypes matchups)
          (mMinOf archetypes matchups) (mMaxOf archetypes matchups) := by
  cases hmn : (List.map (fun r => r.overall_matches) (archSorted archetypes)).min? with
  | none =>
    left
    have hnil : archSorted archetypes = [] := by
      have := List.min?_eq_none_iff.mp hmn
      exact List.map_eq_nil.mp this
    constructor
    · exact hnil
    · simp [build_graph, edgesOf, hmn]
  | some mn =>
    cases hmx : (List.map (fun r => r.overall_matches) (archSorted archetypes)).max? with
    | none =>
      left
      have hnil : archSorted archetypes = [] := by
        have := List.max?_eq_none_iff.mp hmx
        exact List.map_eq_nil.mp this
      constructor
      · exact hnil
      · simp [build_graph, edgesOf, hmn, hmx]
    | some mx =>
      right
      simp only [build_graph, edgesOf, hmn, hmx, HIDE_ISOLATED_NODES]
      rfl

/-- Claim C4: for every pair of input tables and every edge of the built
graph whose neutral flag is false, the stored winrate is strictly greater
than 0.5, winrate_from coincides with it (the favored side's win
probability, so the source is the favored archetype), and the edge carries
an arrowhead: the direction never disagrees with the stored winrate. -/
theorem C4_orientation_invariant (archetypes : List ArchRow) (matchups : List MatchRow)
    (e : Edge) (he : e ∈ edgesOf (build_graph archetypes matchups))
    (hn : e.neutral = false) :
    1/2 < e.winrate ∧ e.winrate_from = e.winrate ∧ e.arrows = "to" := by
  rcases edgesOf_build_graph archetypes matchups with ⟨_, hnil⟩ | heq
  · rw [hnil] at he
    exact absurd he (List.not_mem_nil e)
  · rw [heq] at he
    exact ((build_edges_inv _ _ _).1 e he).2 hn

/-- Closed witness for C4_orientation_invariant: the non-neutral edge built
from the fixture tables satisfies the orientation invariant. -/
theorem C4_orientation_invariant_witness :
    ∃ e : Edge, e ∈ edgesOf (build_graph archsXY msC3) ∧ e.neutral = false
      ∧ (1/2 < e.winrate ∧ e.winrate_from = e.winrate ∧ e.arrows = "to") := by
  have hev := edges_eval_C3
  cases hl : edgesOf (build_graph archsXY msC3) with
  | nil =>
    rw [hl] at hev
    simp at hev
  | cons e tl =>
    rw [hl] at hev
    simp only [List.map_cons, List.cons.injEq] at hev
    have hn : e.neutral = false := by
      have := hev.1
      simp [projEdge, Prod.ext_iff] at this
      exact this.2.2.2.2.1
    have hmem : e ∈ edgesOf (build_graph archsXY msC3) := by
      rw [hl]
      exact List.mem_cons_self e tl
    exact ⟨e, List.mem_cons_self e tl, hn, C4_orientation_invariant archsXY msC3 e hmem hn⟩

/-- Claim C5: for every pair of input tables, each unordered pair of
distinct archetype names appearing in a row of the filtered matchup set
yields exactly one edge of the output graph (in either orientation), and
self-pairs yield no edge. -/
theorem C5_dedup_invariant (archetypes : List ArchRow) (matchups : List MatchRow) :
    (∀ a b : String, a ≠ b →
      (∃ r ∈ filteredM archetypes matchups, (r.a = a ∧ r.b = b) ∨ (r.a = b ∧ r.b = a)) →
      (edgesOf (build_graph archetypes matchups)).countP (touches a b) = 1)
    ∧ ∀ a : String, (edgesOf (build_graph archetypes matchups)).countP (touches a a) = 0 := by
  rcases edgesOf_build_graph archetypes matchups with ⟨hsorted, hnil⟩ | heq
  · constructor
    · rintro a b _ ⟨r, hrm, _⟩
      rw [filteredM_of_empty hsorted matchups] at hrm
      exact absurd hrm (List.not_mem_nil r)
    · intro a
      rw [hnil]
      rfl
  · rw [heq]
    exact ⟨fun a b hne hex => (build_edges_inv _ _ _).2 a b hne hex,
      fun a => build_edges_self_zero _ _ _ a⟩

/-- Closed witness for C5_dedup_invariant on the fixture tables: the pair
X, Y occurs in the filtered matchup set and receives exactly one edge, and
the self-pair X, X receives none. -/
theorem C5_dedup_invariant_witness :
    ("X" : String) ≠ "Y"
    ∧ (∃ r ∈ filteredM archsXY msC3, (r.a = "X" ∧ r.b = "Y") ∨ (r.a = "Y" ∧ r.b = "X"))
    ∧ (edgesOf (build_graph archsXY msC3)).countP (touches "X" "Y") = 1
    ∧ (edgesOf (build_graph archsXY msC3)).countP (touches "X" "X") = 0 :=
  ⟨by decide, by decide,
    (C5_dedup_invariant archsXY msC3).1 "X" "Y" (by decide) (by decide),
    (C5_dedup_invariant archsXY msC3).2 "X"⟩

/- Helpers for the client-side local width rescale. -/

lemma int_min?_spec {l : List ℤ} {a : ℤ} (h : l.min? = some a) :
    a ∈ l ∧ ∀ b ∈ l, a ≤ b := by
  haveI : Std.Antisymm ((· : ℤ) ≤ ·) := ⟨fun h1 h2 => le_antisymm h1 h2⟩
  rw [List.min?_eq_some_iff (fun a => le_refl a) (fun a b => min_choice a b)
    (fun a b c => le_min_iff)] at h
  exact h

lemma int_max?_spec {l : List ℤ} {a : ℤ} (h : l.max? = some a) :
    a ∈ l ∧ ∀ b ∈ l, b ≤ a := by
  haveI : Std.Antisymm ((· : ℤ) ≤ ·) := ⟨fun h1 h2 => le_antisymm h1 h2⟩
  rw [List.max?_eq_some_iff (fun a => le_refl a) (fun a b => max_choice a b)
    (fun a b c => max_le_iff)] at h
  exact h

lemma localMatches_one_le {es : List VEdge} {c : String} :
    ∀ mv ∈ localMatches es c, 1 ≤ mv := by
  intro mv hmv
  unfold localMatches at hmv
  rw [List.mem_filterMap] at hmv
  obtain ⟨e, _, hfe⟩ := hmv
  simp only at hfe
  by_cases h : 0 < e.matches'.getD 0
  · rw [if_pos h] at hfe
    cases hfe
    omega
  · rw [if_neg h] at hfe
    exact absurd hfe (by simp)

lemma mem_localMatches {es : List VEdge} {c : String} {e : VEdge}
    (he : e ∈ es) (hh : e.hidden = false) (hic : e.efrom = c ∨ e.eto = c)
    (hpos : 0 < e.matches'.getD 0) :
    e.matches'.getD 0 ∈ localMatches es c := by
  unfold localMatches
  rw [List.mem_filterMap]
  refine ⟨e, ?_, ?_⟩
  · rw [List.mem_filter]
    refine ⟨he, ?_⟩
    rcases hic with h | h <;> simp [hh, h]
  · simp only
    rw [if_pos hpos]

lemma edgeWidthScale_top {mn mm : ℤ} (h1 : 1 ≤ mn) (hlt : mn < mm) :
    edgeWidthScale ((mm : ℤ) : ℝ) ((mn : ℤ) : ℝ) ((mm : ℤ) : ℝ) = 10 := by
  have h0 : (0:ℝ) < ((mn : ℤ) : ℝ) := by exact_mod_cast lt_of_lt_of_le zero_lt_one h1
  have hltR : ((mn : ℤ) : ℝ) < ((mm : ℤ) : ℝ) := by exact_mod_cast hlt
  have hlog : Real.logb 10 ((mn : ℤ) : ℝ) < Real.logb 10 ((mm : ℤ) : ℝ) :=
    Real.logb_lt_logb (by norm_num) h0 hltR
  simp only [edgeWidthScale]
  rw [if_neg (not_le.mpr (lt_trans h0 hltR)), if_neg (not_le.mpr hltR)]
  rw [div_self (sub_ne_zero.mpr (ne_of_gt hlog))]
  norm_num

/-- Claim C9 counterexample: the claim says the incident edge with the most
matches always renders at the maximum width after focusing.  Focusing a node
whose two visible matchups both have 500 matches makes the local min and max
coincide, and edgeWidthScale then falls back to the midpoint width
(0.6 + 10)/2 = 5.3, not the maximum 10. -/
theorem C9_counterexample_equal_matches :
    (applyCenterEdgeEncoding esC9cx "C").map (fun e => e.width) = [53/10, 53/10]
    ∧ (53/10 : ℝ) ≠ 10 := by
  constructor
  · norm_num [applyCenterEdgeEncoding, localMatches, edgeWidthScale, esC9cx, vedge,
      List.min?, List.max?, List.filterMap, List.filter, abs_of_pos, abs_of_neg,
      abs_of_nonneg]
  · norm_num

/-- Claim C9 amended: after focusing, each visible incident edge's width is
recomputed from the min and max of matches over the visible incident edges
only; the incident edge whose match count strictly exceeds some other
visible incident matchup (i.e. the busiest one, provided the incident match
counts are not all equal) renders exactly at the client's maximum width 10,
regardless of any other node's matchups. -/
theorem C9_local_rescale (es : List VEdge) (c : String) (e' : VEdge)
    (hmem : e' ∈ applyCenterEdgeEncoding es c)
    (hvis : e'.hidden = false)
    (hinc : e'.efrom = c ∨ e'.eto = c)
    (hmax : ∀ mv ∈ localMatches es c, mv ≤ e'.matches'.getD 0)
    (hlt : ∃ mv ∈ localMatches es c, mv < e'.matches'.getD 0) :
    e'.width = 10 := by
  obtain ⟨mv, hmv, hmvlt⟩ := hlt
  have hmv1 : 1 ≤ mv := localMatches_one_le mv hmv
  simp only [applyCenterEdgeEncoding, List.mem_map] at hmem
  obtain ⟨e, he, hfe⟩ := hmem
  by_cases hh : e.hidden = true
  · rw [if_pos hh] at hfe
    subst hfe
    rw [hvis] at hh
    exact absurd hh (by simp)
  · rw [if_neg hh] at hfe
    have hh' : e.hidden = false := by
      revert hh
      cases e.hidden <;> simp
    by_cases hni : e.efrom ≠ c ∧ e.eto ≠ c
    · rw [if_pos hni] at hfe
      subst hfe
      rcases hinc with h | h
      · exact absurd h hni.1
      · exact absurd h hni.2
    · rw [if_neg hni] at hfe
      have hic : e.efrom = c ∨ e.eto = c := by
        rcases not_and_or.mp hni with h | h
        · exact Or.inl (not_not.mp h)
        · exact Or.inr (not_not.mp h)
      split_ifs at hfe with hw1 hw2 <;> subst hfe <;>
        simp only at hmax hmvlt ⊢ <;>
        · have hpos : 0 < e.matches'.getD 0 := by omega
          have hmm_mem : e.matches'.getD 0 ∈ localMatches es c :=
            mem_localMatches he hh' hic hpos
          have hne : localMatches es c ≠ [] := List.ne_nil_of_mem hmv
          obtain ⟨mn, hmn⟩ : ∃ mn, (localMatches es c).min? = some mn := by
            cases hm0 : (localMatches es c).min? with
            | none => exact absurd (List.min?_eq_none_iff.mp hm0) hne
            | some v => exact ⟨v, rfl⟩
          obtain ⟨mx, hmx⟩ : ∃ mx, (localMatches es c).max? = some mx := by
            cases hm0 : (localMatches es c).max? with
            | none => exact absurd (List.max?_eq_none_iff.mp hm0) hne
            | some v => exact ⟨v, rfl⟩
          obtain ⟨hmn_mem, hmn_le⟩ := int_min?_spec hmn
          obtain ⟨hmx_mem, hmx_ge⟩ := int_max?_spec hmx
          have hmx_eq : mx = e.matches'.getD 0 :=
            le_antisymm (hmax mx hmx_mem) (hmx_ge _ hmm_mem)
          have hmn_lt : mn < e.matches'.getD 0 := lt_of_le_of_lt (hmn_le mv hmv) hmvlt
          have hmn_1 : 1 ≤ mn := localMatches_one_le mn hmn_mem
          simp only [hmn, hmx, hmx_eq]
          exact edgeWidthScale_top hmn_1 hmn_lt

lemma apply_eval_C9 : (applyCenterEdgeEncoding esC9 "C").map
    (fun e => (e.efrom, e.eto, e.hidden, e.matches')) =
    [("C", "A", false, some 10), ("C", "B", false, some 1000),
     ("D", "E", false, some 1000000)] := by
  norm_num [applyCenterEdgeEncoding, localMatches, edgeWidthScale, esC9, vedge,
    List.min?, List.max?, List.filterMap, List.filter, abs_of_pos, abs_of_neg,
    abs_of_nonneg]
  simp +decide

/-- Closed witness for C9_local_rescale: focusing "C" in a graph whose
matchups for "C" have 10 and 1000 matches, next to an unrelated edge of
1000000 matches, renders the 1000-match edge at the maximum width 10. -/
theorem C9_local_rescale_witness :
    ∃ e' : VEdge, e' ∈ applyCenterEdgeEncoding esC9 "C" ∧ e'.hidden = false
      ∧ (e'.efrom = "C" ∨ e'.eto = "C")
      ∧ (∀ mv ∈ localMatches esC9 "C", mv ≤ e'.matches'.getD 0)
      ∧ (∃ mv ∈ localMatches esC9 "C", mv < e'.matches'.getD 0)
      ∧ e'.width = 10 := by
  have heval := apply_eval_C9
  have hloc : localMatches esC9 "C" = [10, 1000] := by decide
  cases hl : applyCenterEdgeEncoding esC9 "C" with
  | nil =>
    rw [hl] at heval
    simp at heval
  | cons x1 r1 =>
    cases r1 with
    | nil =>
      rw [hl] at heval
      simp at heval
    | cons x2 r2 =>
      rw [hl] at heval
      simp only [List.map_cons, List.cons.injEq] at heval
      have hx2 := heval.2.1
      simp only [Prod.ext_iff] at hx2
      have hfrom : x2.efrom = "C" := hx2.1
      have hhid : x2.hidden = false := hx2.2.2.1
      have hm : x2.matches'.getD 0 = 1000 := by
        rw [hx2.2.2.2]
        rfl
      have hmem : x2 ∈ applyCenterEdgeEncoding esC9 "C" := by
        rw [hl]
        exact List.mem_cons_of_mem _ (List.mem_cons_self _ _)
      refine ⟨x2, List.mem_cons_of_mem _ (List.mem_cons_self _ _), hhid, Or.inl hfrom,
        ?_, ?_, ?_⟩
      · rw [hloc, hm]
        decide
      · rw [hloc, hm]
        decide
      · exact C9_local_rescale esC9 "C" x2 hmem hhid (Or.inl hfrom)
          (by rw [hloc, hm]; decide) (by rw [hloc, hm]; decide)

/- Python round (half to even) : characterization and monotonicity. -/

lemma round_of_fract_lt {x : ℝ} (h : Int.fract x < 1/2) : round x = ⌊x⌋ := by
  rw [round_eq, Int.floor_eq_iff]
  have := Int.floor_add_fract x
  have h0 := Int.fract_nonneg x
  constructor
  · linarith [Int.floor_le x]
  · linarith

lemma round_of_half_lt_fract {x : ℝ} (h : 1/2 < Int.fract x) : round x = ⌊x⌋ + 1 := by
  rw [round_eq, Int.floor_eq_iff]
  have := Int.floor_add_fract x
  have h1 := Int.fract_lt_one x
  constructor
  · push_cast
    linarith
  · push_cast
    linarith

lemma pyRound_bounds (x : ℝ) : ⌊x⌋ ≤ pyRound x ∧ pyRound x ≤ ⌊x⌋ + 1 := by
  unfold pyRound
  split_ifs with h1 h2
  · exact ⟨le_rfl, by omega⟩
  · exact ⟨by omega, le_rfl⟩
  · rcases lt_or_gt_of_ne h1 with h | h
    · rw [round_of_fract_lt h]
      exact ⟨le_rfl, by omega⟩
    · rw [round_of_half_lt_fract h]
      exact ⟨by omega, le_rfl⟩

lemma pyRound_intCast (n : ℤ) : pyRound ((n : ℤ) : ℝ) = n := by
  unfold pyRound
  rw [Int.fract_intCast]
  norm_num

lemma pyRound_mono {x y : ℝ} (h : x ≤ y) : pyRound x ≤ pyRound y := by
  rcases lt_or_le ⌊x⌋ ⌊y⌋ with hf | hf
  · calc pyRound x ≤ ⌊x⌋ + 1 := (pyRound_bounds x).2
      _ ≤ ⌊y⌋ := by omega
      _ ≤ pyRound y := (pyRound_bounds y).1
  · have hfe : ⌊x⌋ = ⌊y⌋ := le_antisymm (Int.floor_mono h) hf
    have hfr : Int.fract x ≤ Int.fract y := by
      have e1 := Int.floor_add_fract x
      have e2 := Int.floor_add_fract y
      have : ((⌊x⌋ : ℤ) : ℝ) = ((⌊y⌋ : ℤ) : ℝ) := by rw [hfe]
      linarith
    by_cases hx : Int.fract x = 1/2
    · by_cases hy : Int.fract y = 1/2
      · unfold pyRound
        rw [if_pos hx, if_pos hy, hfe]
      · have hylt : 1/2 < Int.fract y := lt_of_le_of_ne (hx ▸ hfr) (Ne.symm hy)
        have : pyRound y = ⌊y⌋ + 1 := by
          unfold pyRound
          rw [if_neg (ne_of_gt hylt), round_of_half_lt_fract hylt]
        rw [this, ← hfe]
        exact (pyRound_bounds x).2
    · by_cases hy : Int.fract y = 1/2
      · have hxlt : Int.fract x < 1/2 := lt_of_le_of_ne (hy ▸ hfr) hx
        have : pyRound x = ⌊x⌋ := by
          unfold pyRound
          rw [if_neg (ne_of_lt hxlt), round_of_fract_lt hxlt]
        rw [this, hfe]
        exact (pyRound_bounds y).1
      · unfold pyRound
        rw [if_neg hx, if_neg hy, round_eq, round_eq]
        exact Int.floor_mono (by linarith)

/- Radial layout: ring assignment is monotone in the match count. -/

lemma ring_index_mono {vmin vmax : ℝ} (h1 : 1 ≤ vmin) (h2 : vmin + 1 ≤ vmax)
    {m1 m2 : ℝ} (hm : m1 ≤ m2) :
    ring_index vmin vmax m1 ≤ ring_index vmin vmax m2 := by
  have hv0 : (0:ℝ) < vmin := by linarith
  have hvlt : vmin < vmax := by linarith
  have hba : Real.logb 10 vmin < Real.logb 10 vmax :=
    Real.logb_lt_logb (by norm_num) hv0 hvlt
  simp only [ring_index, norm_log, if_neg (ne_of_gt hba)]
  have hnum : Real.logb 10 (max m1 vmin) ≤ Real.logb 10 (max m2 vmin) :=
    Real.logb_le_logb_of_le (by norm_num) (lt_of_lt_of_le hv0 (le_max_right m1 vmin))
      (max_le_max hm le_rfl)
  have ht : (Real.logb 10 (max m1 vmin) - Real.logb 10 vmin) / (Real.logb 10 vmax - Real.logb 10 vmin)
      ≤ (Real.logb 10 (max m2 vmin) - Real.logb 10 vmin) / (Real.logb 10 vmax - Real.logb 10 vmin) :=
    (div_le_div_right (by linarith)).mpr (by linarith)
  exact max_le_max le_rfl (min_le_min le_rfl (pyRound_mono
    (mul_le_mul_of_nonneg_right ht (by norm_num [RING_COUNT]))))

lemma snd_eq_of_nodup_fst {l : List (String × ℤ)} (hnd : (l.map Prod.fst).Nodup)
    {n : String} {m1 m2 : ℤ} (h1 : (n, m1) ∈ l) (h2 : (n, m2) ∈ l) : m1 = m2 := by
  induction l with
  | nil => exact absurd h1 (List.not_mem_nil _)
  | cons p t ih =>
    rw [List.map_cons, List.nodup_cons] at hnd
    rcases List.mem_cons.mp h1 with e1 | e1 <;> rcases List.mem_cons.mp h2 with e2 | e2
    · rw [← e1] at e2
      exact (Prod.mk.injEq _ _ _ _).mp e2.symm |>.2
    · exfalso
      apply hnd.1
      rw [List.mem_map]
      refine ⟨(n, m2), e2, ?_⟩
      rw [← e1]
    · exfalso
      apply hnd.1
      rw [List.mem_map]
      refine ⟨(n, m1), e1, ?_⟩
      rw [← e2]
    · exact ih hnd.2 e1 e2

lemma vminOfL_ge_one (arch : List (String × ℤ)) : 1 ≤ vminOfL arch := by
  unfold vminOfL
  split
  · norm_num
  · exact le_max_left _ _

lemma vmaxOfL_ge (arch : List (String × ℤ)) : vminOfL arch + 1 ≤ vmaxOfL arch := by
  unfold vmaxOfL
  split
  · rename_i heq
    simp [vminOfL, heq]
    norm_num
  · exact le_max_left _ _

lemma ringRadius_mono {i j : ℤ} (h : i ≤ j) : ringRadius i ≤ ringRadius j := by
  unfold ringRadius
  have hc : ((i : ℤ) : ℝ) ≤ ((j : ℤ) : ℝ) := by exact_mod_cast h
  have hs : (0:ℝ) ≤ RING_RADIUS_STEP := by norm_num [RING_RADIUS_STEP]
  nlinarith

lemma cos_sin_radius_sq (t R : ℝ) :
    (Real.cos t * R) ^ 2 + (Real.sin t * R) ^ 2 = R ^ 2 := by
  nlinarith [Real.sin_sq_add_cos_sq t]

lemma compute_radial_positions_mem {arch : List (String × ℤ)} {n : String} {x y : ℝ}
    (h : (n, (x, y)) ∈ compute_radial_positions arch) :
    ∃ m : ℤ, (n, m) ∈ arch ∧
      Real.sqrt (x ^ 2 + y ^ 2)
        = ringRadius (ring_index (vminOfL arch) (vmaxOfL arch) ((m : ℤ) : ℝ)) := by
  unfold compute_radial_positions at h
  split_ifs at h with hemp
  · exact absurd h (List.not_mem_nil _)
  · rw [List.mem_flatMap] at h
    obtain ⟨ri, hri, h2⟩ := h
    simp only [List.mem_map] at h2
    obtain ⟨ip, hip, heq⟩ := h2
    simp only [Prod.mk.injEq] at heq
    have heq2 := heq.2
    have hn : ip.2.1 = n := heq.1
    have hp := List.snd_mem_of_mem_enum hip
    rw [List.mem_filter] at hp
    have hmem : ip.2 ∈ arch := (List.perm_insertionSort _ arch).subset hp.1
    have hring : ring_index (vminOfL arch) (vmaxOfL arch) ((ip.2.2 : ℤ) : ℝ) = (ri : ℤ) := by
      simpa using hp.2
    refine ⟨ip.2.2, ?_, ?_⟩
    · have : ip.2 = (n, ip.2.2) := Prod.ext hn rfl
      rw [← this]
      exact hmem
    · have hr0 : (0:ℝ) ≤ RING_RADIUS_BASE + (ri : ℝ) * RING_RADIUS_STEP := by
        have hc : (0:ℝ) ≤ (ri : ℝ) := Nat.cast_nonneg ri
        have hb : (0:ℝ) ≤ RING_RADIUS_BASE := by norm_num [RING_RADIUS_BASE]
        have hs : (0:ℝ) ≤ RING_RADIUS_STEP := by norm_num [RING_RADIUS_STEP]
        nlinarith
      rw [← heq2.1, ← heq2.2]
      rw [cos_sin_radius_sq, Real.sqrt_sq hr0, hring]
      unfold ringRadius
      push_cast
      ring

lemma compute_radial_positions_exists {arch : List (String × ℤ)} {n : String} {m : ℤ}
    (hmem : (n, m) ∈ arch) :
    ∃ x y : ℝ, (n, (x, y)) ∈ compute_radial_positions arch := by
  have hmem' : (n, m) ∈ orderedArch arch := (List.perm_insertionSort _ arch).symm.subset hmem
  have hne : orderedArch arch ≠ [] := List.ne_nil_of_mem hmem'
  unfold compute_radial_positions
  rw [if_neg hne]
  have h0 : 0 ≤ ring_index (vminOfL arch) (vmaxOfL arch) ((m : ℤ) : ℝ) := by
    simp only [ring_index]
    exact le_max_left _ _
  have h4 : ring_index (vminOfL arch) (vmaxOfL arch) ((m : ℤ) : ℝ) ≤ 4 := by
    simp only [ring_index]
    exact max_le (by norm_num) ((min_le_left _ _).trans (by norm_num [RING_COUNT]))
  have hlt : (ring_index (vminOfL arch) (vmaxOfL arch) ((m : ℤ) : ℝ)).toNat < RING_COUNT := by
    rw [RING_COUNT]
    omega
  have hpmem : (n, m) ∈ (orderedArch arch).filter
      (fun p => ring_index (vminOfL arch) (vmaxOfL arch) (p.2 : ℝ)
        = (((ring_index (vminOfL arch) (vmaxOfL arch) ((m : ℤ) : ℝ)).toNat : ℕ) : ℤ)) := by
    rw [List.mem_filter]
    refine ⟨hmem', ?_⟩
    simp [Int.toNat_of_nonneg h0]
  obtain ⟨i, hi⟩ := List.get_of_mem hpmem
  have henum : (i.1, (n, m)) ∈ ((orderedArch arch).filter
      (fun p => ring_index (vminOfL arch) (vmaxOfL arch) (p.2 : ℝ)
        = (((ring_index (vminOfL arch) (vmaxOfL arch) ((m : ℤ) : ℝ)).toNat : ℕ) : ℤ))).enum := by
    rw [List.mem_enum_iff_getElem?]
    simp [← hi, List.getElem?_eq_getElem]
  refine ⟨_, _, List.mem_flatMap.mpr
    ⟨(ring_index (vminOfL arch) (vmaxOfL arch) ((m : ℤ) : ℝ)).toNat,
      List.mem_range.mpr hlt, List.mem_map.mpr ⟨(i.1, (n, m)), henum, rfl⟩⟩⟩

/- Concrete ring computations for the two-archetype fixture. -/

lemma orderedArchC2 : orderedArch archC2 = [("A", 1000), ("B", 1)] := by
  norm_num [orderedArch, archC2, List.insertionSort, List.orderedInsert]

lemma vminC2 : vminOfL archC2 = 1 := by
  rw [vminOfL, orderedArchC2]
  norm_num

lemma vmaxC2 : vmaxOfL archC2 = 1000 := by
  rw [vmaxOfL, orderedArchC2]
  norm_num [vminC2]

lemma logb_ten_1000 : Real.logb 10 1000 = 3 := by
  rw [show (1000:ℝ) = 10 ^ (3:ℕ) by norm_num, Real.logb, Real.log_pow, mul_div_assoc,
    div_self (ne_of_gt (Real.log_pos (by norm_num)))]
  norm_num

lemma ring_index_C2_A : ring_index 1 1000 1000 = 4 := by
  simp only [ring_index, norm_log]
  rw [Real.logb_one, logb_ten_1000, max_eq_left (by norm_num : (1:ℝ) ≤ 1000)]
  rw [if_neg (by norm_num : ¬ ((3:ℝ) = 0)), logb_ten_1000]
  have h4 : ((3:ℝ) - 0) / (3 - 0) * ((RING_COUNT : ℝ) - 1) = ((4:ℤ) : ℝ) := by
    norm_num [RING_COUNT]
  rw [h4, pyRound_intCast]
  norm_num [RING_COUNT]

lemma ring_index_C2_B : ring_index 1 1000 1 = 0 := by
  simp only [ring_index, norm_log]
  rw [Real.logb_one, logb_ten_1000, max_self]
  rw [if_neg (by norm_num : ¬ ((3:ℝ) = 0))]
  have h0 : ((Real.logb 10 1) - 0) / (3 - 0) * ((RING_COUNT : ℝ) - 1) = ((0:ℤ) : ℝ) := by
    rw [Real.logb_one]
    norm_num
  rw [h0, pyRound_intCast]
  norm_num [RING_COUNT]

/-- Claim C2 counterexample: the claim says that of two archetypes the one
with strictly more overall matches is placed at a radius less than or equal
to the other's (popular archetypes pulled toward the center).  On the table
[("A", 1000), ("B", 1)] the layout assigns "A" to ring 4 at radius 1140 and
"B" to ring 0 at radius 260, so the claim fails: the code sends popular
archetypes outward (as its own docstring says). -/
theorem C2_counterexample_popular_inner :
    ¬ (∀ (arch : List (String × ℤ)) (a b : String) (ma mb : ℤ) (xa ya xb yb : ℝ),
        (arch.map Prod.fst).Nodup → (a, ma) ∈ arch → (b, mb) ∈ arch → mb < ma →
        (a, (xa, ya)) ∈ compute_radial_positions arch →
        (b, (xb, yb)) ∈ compute_radial_positions arch →
        Real.sqrt (xa ^ 2 + ya ^ 2) ≤ Real.sqrt (xb ^ 2 + yb ^ 2)) := by
  intro H
  have hnodup : (archC2.map Prod.fst).Nodup := by decide
  obtain ⟨xa, ya, hpa⟩ := @compute_radial_positions_exists archC2 "A" 1000 (by decide)
  obtain ⟨xb, yb, hpb⟩ := @compute_radial_positions_exists archC2 "B" 1 (by decide)
  have hle := H archC2 "A" "B" 1000 1 xa ya xb yb hnodup (by decide) (by decide)
    (by decide) hpa hpb
  obtain ⟨m1, hm1, hr1⟩ := compute_radial_positions_mem hpa
  obtain ⟨m2, hm2, hr2⟩ := compute_radial_positions_mem hpb
  have e1 : m1 = 1000 := snd_eq_of_nodup_fst hnodup hm1 (by decide)
  have e2 : m2 = 1 := snd_eq_of_nodup_fst hnodup hm2 (by decide)
  rw [e1, vminC2, vmaxC2] at hr1
  rw [e2, vminC2, vmaxC2] at hr2
  norm_num [ring_index_C2_A] at hr1
  norm_num [ring_index_C2_B] at hr2
  rw [hr1, hr2] at hle
  norm_num [ringRadius, RING_RADIUS_BASE, RING_RADIUS_STEP] at hle

/-- Claim C2 amended: each archetype is assigned a ring by rounding its
log-normalized match volume, and the highest-volume archetypes land on the
outer rings: of two archetypes in the input (with distinct names), the one
with strictly more overall matches is placed at a radius greater than or
equal to the other's — popular archetypes are pushed outward, as the
code's docstring states ("Bigger decks go to outer rings for separation"). -/
theorem C2_rings_outward (arch : List (String × ℤ)) (a b : String) (ma mb : ℤ)
    (xa ya xb yb : ℝ)
    (hnd : (arch.map Prod.fst).Nodup)
    (hma : (a, ma) ∈ arch) (hmb : (b, mb) ∈ arch) (hlt : mb < ma)
    (hpa : (a, (xa, ya)) ∈ compute_radial_positions arch)
    (hpb : (b, (xb, yb)) ∈ compute_radial_positions arch) :
    Real.sqrt (xb ^ 2 + yb ^ 2) ≤ Real.sqrt (xa ^ 2 + ya ^ 2) := by
  obtain ⟨m1, hm1, hr1⟩ := compute_radial_positions_mem hpa
  obtain ⟨m2, hm2, hr2⟩ := compute_radial_positions_mem hpb
  have e1 : m1 = ma := snd_eq_of_nodup_fst hnd hm1 hma
  have e2 : m2 = mb := snd_eq_of_nodup_fst hnd hm2 hmb
  rw [e1] at hr1
  rw [e2] at hr2
  rw [hr1, hr2]
  exact ringRadius_mono (ring_index_mono (vminOfL_ge_one arch) (vmaxOfL_ge arch)
    (by exact_mod_cast hlt.le))

/-- Closed witness for C2_rings_outward on the fixture table
[("A", 1000), ("B", 1)]. -/
theorem C2_rings_outward_witness :
    ∃ xa ya xb yb : ℝ,
      ((archC2.map Prod.fst).Nodup ∧ ("A", (1000:ℤ)) ∈ archC2 ∧ ("B", (1:ℤ)) ∈ archC2
        ∧ (1:ℤ) < 1000
        ∧ ("A", (xa, ya)) ∈ compute_radial_positions archC2
        ∧ ("B", (xb, yb)) ∈ compute_radial_positions archC2)
      ∧ Real.sqrt (xb ^ 2 + yb ^ 2) ≤ Real.sqrt (xa ^ 2 + ya ^ 2) := by
  obtain ⟨xa, ya, hpa⟩ := @compute_radial_positions_exists archC2 "A" 1000 (by decide)
  obtain ⟨xb, yb, hpb⟩ := @compute_radial_positions_exists archC2 "B" 1 (by decide)
  exact ⟨xa, ya, xb, yb, ⟨by decide, by decide, by decide, by decide, hpa, hpb⟩,
    C2_rings_outward archC2 "A" "B" 1000 1 xa ya xb yb (by decide) (by decide) (by decide)
      (by decide) hpa hpb⟩

/- C8: the two color laws.  Bounds on tanh and rpow needed to separate and
   to align the builder (k=5.5, gamma=0.55) and client (k=8.5, gamma=0.45)
   colorings. -/

lemma round_mono_le {x y : ℝ} (h : x ≤ y) : round x ≤ round y := by
  rw [round_eq, round_eq]
  exact Int.floor_mono (by linarith)

lemma tanh_pos_of_pos {x : ℝ} (h : 0 < x) : 0 < Real.tanh x := by
  rw [Real.tanh_eq_sinh_div_cosh]
  exact div_pos (Real.sinh_pos_iff.mpr h) (Real.cosh_pos x)

lemma tanh_lt_one' (x : ℝ) : Real.tanh x < 1 := by
  rw [Real.tanh_eq_sinh_div_cosh, div_lt_one (Real.cosh_pos x), Real.sinh_eq, Real.cosh_eq]
  have := Real.exp_pos (-x)
  linarith

lemma tanh_le_of_exp_le {x c : ℝ} (h : Real.exp (2 * x) ≤ c) :
    Real.tanh x ≤ (c - 1) / (c + 1) := by
  have hE : 0 < Real.exp x := Real.exp_pos x
  have hEE : Real.exp x * Real.exp x = Real.exp (2 * x) := by
    rw [← Real.exp_add]
    ring_nf
  have hc : 0 < c + 1 := by nlinarith [Real.exp_pos (2 * x)]
  rw [Real.tanh_eq_sinh_div_cosh, div_le_div_iff (Real.cosh_pos x) hc, Real.sinh_eq,
    Real.cosh_eq, Real.exp_neg]
  have hinv : Real.exp x * (Real.exp x)⁻¹ = 1 := mul_inv_cancel₀ (ne_of_gt hE)
  have hinvpos : 0 < (Real.exp x)⁻¹ := inv_pos.mpr hE
  nlinarith [mul_le_mul_of_nonneg_right h hinvpos.le]

lemma le_tanh_of_le_exp {x c : ℝ} (hc : 0 < c + 1) (h : c ≤ Real.exp (2 * x)) :
    (c - 1) / (c + 1) ≤ Real.tanh x := by
  have hE : 0 < Real.exp x := Real.exp_pos x
  have hEE : Real.exp x * Real.exp x = Real.exp (2 * x) := by
    rw [← Real.exp_add]
    ring_nf
  rw [Real.tanh_eq_sinh_div_cosh, div_le_div_iff hc (Real.cosh_pos x), Real.sinh_eq,
    Real.cosh_eq, Real.exp_neg]
  have hinv : Real.exp x * (Real.exp x)⁻¹ = 1 := mul_inv_cancel₀ (ne_of_gt hE)
  have hinvpos : 0 < (Real.exp x)⁻¹ := inv_pos.mpr hE
  nlinarith [mul_le_mul_of_nonneg_right h hinvpos.le]

lemma lt_tanh_of_lt_exp {x c : ℝ} (hc : 0 < c + 1) (h : c < Real.exp (2 * x)) :
    (c - 1) / (c + 1) < Real.tanh x := by
  have hE : 0 < Real.exp x := Real.exp_pos x
  have hEE : Real.exp x * Real.exp x = Real.exp (2 * x) := by
    rw [← Real.exp_add]
    ring_nf
  rw [Real.tanh_eq_sinh_div_cosh, div_lt_div_iff hc (Real.cosh_pos x), Real.sinh_eq,
    Real.cosh_eq, Real.exp_neg]
  have hinv : Real.exp x * (Real.exp x)⁻¹ = 1 := mul_inv_cancel₀ (ne_of_gt hE)
  have hinvpos : 0 < (Real.exp x)⁻¹ := inv_pos.mpr hE
  nlinarith [mul_lt_mul_of_pos_right h hinvpos]

lemma exp_1110_le_four : Real.exp (11 / 10) ≤ 4 := by
  have h10 : Real.exp (11 / 10) ^ (10 : ℕ) = Real.exp 11 := by
    rw [← Real.exp_nat_mul]
    norm_num
  have h11 : Real.exp 11 = Real.exp 1 ^ (11 : ℕ) := by
    rw [← Real.exp_nat_mul]
    norm_num
  refine le_of_pow_le_pow_left (by norm_num) (by norm_num) (n := 10) ?_
  rw [h10, h11]
  calc Real.exp 1 ^ (11 : ℕ) ≤ (2.7182818286 : ℝ) ^ (11 : ℕ) :=
        pow_le_pow_left (Real.exp_pos 1).le Real.exp_one_lt_d9.le 11
    _ ≤ (4 : ℝ) ^ (10 : ℕ) := by norm_num

lemma le_exp_1710 : (33 / 7 : ℝ) ≤ Real.exp (17 / 10) := by
  have h10 : Real.exp (17 / 10) ^ (10 : ℕ) = Real.exp 17 := by
    rw [← Real.exp_nat_mul]
    norm_num
  have h17 : Real.exp 17 = Real.exp 1 ^ (17 : ℕ) := by
    rw [← Real.exp_nat_mul]
    norm_num
  refine le_of_pow_le_pow_left (by norm_num) (Real.exp_pos _).le (n := 10) ?_
  rw [h10, h17]
  calc (33 / 7 : ℝ) ^ (10 : ℕ) ≤ (2.7182818283 : ℝ) ^ (17 : ℕ) := by norm_num
    _ ≤ Real.exp 1 ^ (17 : ℕ) := pow_le_pow_left (by norm_num) Real.exp_one_gt_d9.le 17

lemma lt_exp_eleven : (1019 : ℝ) < Real.exp 11 := by
  have h11 : Real.exp 11 = Real.exp 1 ^ (11 : ℕ) := by
    rw [← Real.exp_nat_mul]
    norm_num
  rw [h11]
  calc (1019 : ℝ) < (2.7182818283 : ℝ) ^ (11 : ℕ) := by norm_num
    _ ≤ Real.exp 1 ^ (11 : ℕ) := pow_le_pow_left (by norm_num) Real.exp_one_gt_d9.le 11

lemma lt_exp_seventeen : (1019 : ℝ) < Real.exp 17 := by
  have h17 : Real.exp 17 = Real.exp 1 ^ (17 : ℕ) := by
    rw [← Real.exp_nat_mul]
    norm_num
  rw [h17]
  calc (1019 : ℝ) < (2.7182818283 : ℝ) ^ (17 : ℕ) := by norm_num
    _ ≤ Real.exp 1 ^ (17 : ℕ) := pow_le_pow_left (by norm_num) Real.exp_one_gt_d9.le 17

lemma tanh_1120_le : Real.tanh (11 / 20) ≤ 3 / 5 := by
  have h := tanh_le_of_exp_le (x := 11 / 20) (c := 4) (by
    rw [show (2 : ℝ) * (11 / 20) = 11 / 10 by norm_num]
    exact exp_1110_le_four)
  calc Real.tanh (11 / 20) ≤ ((4 : ℝ) - 1) / (4 + 1) := h
    _ = 3 / 5 := by norm_num

lemma le_tanh_1720 : (13 / 20 : ℝ) ≤ Real.tanh (17 / 20) := by
  have h := le_tanh_of_le_exp (x := 17 / 20) (c := 33 / 7) (by norm_num) (by
    rw [show (2 : ℝ) * (17 / 20) = 17 / 10 by norm_num]
    exact le_exp_1710)
  calc (13 / 20 : ℝ) = ((33 / 7 : ℝ) - 1) / ((33 / 7) + 1) := by norm_num
    _ ≤ Real.tanh (17 / 20) := h

lemma lt_tanh_55 : (509 / 510 : ℝ) < Real.tanh (11 / 2) := by
  have h := lt_tanh_of_lt_exp (x := 11 / 2) (c := 1019) (by norm_num) (by
    rw [show (2 : ℝ) * (11 / 2) = 11 by norm_num]
    exact lt_exp_eleven)
  calc (509 / 510 : ℝ) = ((1019 : ℝ) - 1) / (1019 + 1) := by norm_num
    _ < Real.tanh (11 / 2) := h

lemma lt_tanh_85 : (509 / 510 : ℝ) < Real.tanh (17 / 2) := by
  have h := lt_tanh_of_lt_exp (x := 17 / 2) (c := 1019) (by norm_num) (by
    rw [show (2 : ℝ) * (17 / 2) = 17 by norm_num]
    exact lt_exp_seventeen)
  calc (509 / 510 : ℝ) = ((1019 : ℝ) - 1) / (1019 + 1) := by norm_num
    _ < Real.tanh (17 / 2) := h

lemma max_min_eq_self {x : ℝ} (h0 : 0 ≤ x) (h1 : x ≤ 1) : max 0 (min 1 x) = x := by
  rw [min_eq_right h1, max_eq_right h0]

lemma clamp01_eq_self {x : ℝ} (h0 : 0 ≤ x) (h1 : x ≤ 1) : clamp x 0 1 = x :=
  max_min_eq_self h0 h1

lemma clamp_tanh_eq {y : ℝ} (hy : 0 < y) : clamp (Real.tanh y) 0 1 = Real.tanh y :=
  clamp01_eq_self (tanh_pos_of_pos hy).le (tanh_lt_one' y).le

lemma round_in_halfopen {x : ℝ} (h0 : 0 ≤ x) (h1 : x < 1 / 2) : round x = 0 := by
  rw [round_eq, Int.floor_eq_iff]
  constructor
  · push_cast
    linarith
  · push_cast
    linarith

lemma pyRound_in_halfopen {x : ℝ} (h0 : 0 ≤ x) (h1 : x < 1 / 2) : pyRound x = 0 := by
  unfold pyRound
  have hfr : Int.fract x = x := Int.fract_eq_self.mpr ⟨h0, by linarith⟩
  rw [hfr, if_neg (by intro hx; rw [hx] at h1; norm_num at h1)]
  exact round_in_halfopen h0 h1

lemma pyRound_3065 : pyRound (306 / 5 : ℝ) = 61 := by
  have hfl : ⌊(306 / 5 : ℝ)⌋ = 61 := by
    rw [Int.floor_eq_iff]
    constructor
    · push_cast
      norm_num
    · push_cast
      norm_num
  unfold pyRound
  have hfr : Int.fract (306 / 5 : ℝ) = 1 / 5 := by
    rw [Int.fract, hfl]
    norm_num
  rw [hfr, if_neg (by norm_num), round_eq]
  rw [Int.floor_eq_iff]
  constructor
  · push_cast
    norm_num
  · push_cast
    norm_num

lemma round_96920 : round (969 / 20 : ℝ) = 48 := by
  rw [round_eq, Int.floor_eq_iff]
  constructor
  · push_cast
    norm_num
  · push_cast
    norm_num

lemma round_255 : round (255 : ℝ) = 255 := by
  rw [show (255 : ℝ) = ((255 : ℤ) : ℝ) by norm_num, round_intCast]

lemma round_zero' : round (0 : ℝ) = 0 := by
  rw [show (0 : ℝ) = ((0 : ℤ) : ℝ) by norm_num, round_intCast]

lemma pyRound_255 : pyRound (255 : ℝ) = 255 := by
  rw [show (255 : ℝ) = ((255 : ℤ) : ℝ) by norm_num, pyRound_intCast]

lemma pyRound_zero : pyRound (0 : ℝ) = 0 := by
  rw [show (0 : ℝ) = ((0 : ℤ) : ℝ) by norm_num, pyRound_intCast]

lemma lerp_same (a t : ℝ) : lerp a a t = a := by
  simp [lerp]

/- The builder color at wr in the upper branch, written with the clamp
   resolved; gamma stays as the rpow exponent. -/

lemma rpow_2055_le : (Real.tanh (11 / 20)) ^ ((0.55 : ℝ)) ≤ 19 / 25 := by
  have hone : (Real.tanh (11 / 20)) ^ ((0.55 : ℝ)) ≤ (3 / 5 : ℝ) ^ ((0.55 : ℝ)) :=
    Real.rpow_le_rpow (tanh_pos_of_pos (by norm_num)).le tanh_1120_le (by norm_num)
  refine le_trans hone ?_
  refine le_of_pow_le_pow_left (by norm_num) (by norm_num) (n := 20) ?_
  have hpow : ((3 / 5 : ℝ) ^ ((0.55 : ℝ))) ^ (20 : ℕ) = (3 / 5 : ℝ) ^ (11 : ℕ) := by
    rw [← Real.rpow_natCast ((3 / 5 : ℝ) ^ ((0.55 : ℝ))) 20, ← Real.rpow_mul (by norm_num),
      show ((0.55 : ℝ) * ((20 : ℕ) : ℝ)) = ((11 : ℕ) : ℝ) by norm_num,
      Real.rpow_natCast]
  rw [hpow]
  norm_num

lemma le_rpow_2045 : (81 / 100 : ℝ) ≤ (Real.tanh (17 / 20)) ^ ((0.45 : ℝ)) := by
  have hone : (13 / 20 : ℝ) ^ ((0.45 : ℝ)) ≤ (Real.tanh (17 / 20)) ^ ((0.45 : ℝ)) :=
    Real.rpow_le_rpow (by norm_num) le_tanh_1720 (by norm_num)
  refine le_trans ?_ hone
  refine le_of_pow_le_pow_left (by norm_num) (Real.rpow_nonneg (by norm_num) _) (n := 20) ?_
  have hpow : ((13 / 20 : ℝ) ^ ((0.45 : ℝ))) ^ (20 : ℕ) = (13 / 20 : ℝ) ^ (9 : ℕ) := by
    rw [← Real.rpow_natCast ((13 / 20 : ℝ) ^ ((0.45 : ℝ))) 20, ← Real.rpow_mul (by norm_num),
      show ((0.45 : ℝ) * ((20 : ℕ) : ℝ)) = ((9 : ℕ) : ℝ) by norm_num,
      Real.rpow_natCast]
  rw [hpow]
  norm_num

/-- Claim C8 counterexample: the spec claims the client-side winrateColor
(k = 8.5, gamma = 0.45) agrees with the builder's winrate_to_color
(k = 5.5, gamma = 0.55) on every winrate in [0, 1].  At wr = 0.55 the
builder's red channel is at least 61 while the client's is at most 48, so
the two color laws disagree. -/
theorem C8_counterexample_color_mismatch :
    winrateColor (11 / 20) ≠ winrate_to_color (11 / 20) 5.5 0.55 := by
  intro heq
  have hfst := congrArg Prod.fst heq
  have hB : (61 : ℤ) ≤ (winrate_to_color (11 / 20) 5.5 0.55).1 := by
    simp only [winrate_to_color, lerp_rgb, lerp, YEL, GRN]
    rw [clamp01_eq_self (by norm_num) (by norm_num),
      if_pos (by norm_num : (0.5 : ℝ) ≤ 11 / 20),
      show (5.5 : ℝ) * ((11 / 20 - 0.5) / 0.5) = 11 / 20 by norm_num,
      clamp_tanh_eq (by norm_num)]
    have harg : (306 / 5 : ℝ) ≤
        ((255 : ℤ) : ℝ) + (((0 : ℤ) : ℝ) - ((255 : ℤ) : ℝ)) *
          (Real.tanh (11 / 20)) ^ ((0.55 : ℝ)) := by
      push_cast
      nlinarith [rpow_2055_le]
    calc (61 : ℤ) = pyRound (306 / 5 : ℝ) := pyRound_3065.symm
      _ ≤ _ := pyRound_mono harg
  have hC : (winrateColor (11 / 20)).1 ≤ 48 := by
    simp only [winrateColor]
    rw [max_min_eq_self (by norm_num) (by norm_num),
      if_pos (by norm_num : (0.5 : ℝ) ≤ 11 / 20),
      show (8.5 : ℝ) * ((11 / 20 - 0.5) / 0.5) = 17 / 20 by norm_num,
      max_min_eq_self (tanh_pos_of_pos (by norm_num)).le (tanh_lt_one' _).le]
    have harg : (255 : ℝ) + ((0 : ℝ) - 255) * (Real.tanh (17 / 20)) ^ ((0.45 : ℝ))
        ≤ 969 / 20 := by
      nlinarith [le_rpow_2045]
    exact le_trans (round_mono_le harg) (le_of_eq round_96920)
  omega

/- Anchor evaluations: both color laws at winrate 1/2, 1, 0. -/

lemma winrate_to_color_half : winrate_to_color (1 / 2) 5.5 0.55 = (255, 255, 0) := by
  simp only [winrate_to_color, lerp_rgb, lerp, YEL, GRN]
  rw [clamp01_eq_self (by norm_num) (by norm_num), if_pos (by norm_num : (0.5 : ℝ) ≤ 1 / 2),
    show (5.5 : ℝ) * ((1 / 2 - 0.5) / 0.5) = 0 by norm_num, Real.tanh_zero,
    clamp01_eq_self le_rfl (by norm_num), Real.zero_rpow (by norm_num)]
  push_cast
  norm_num [Prod.mk.injEq, pyRound_255, pyRound_zero]

lemma winrateColor_half : winrateColor (1 / 2) = (255, 255, 0) := by
  simp only [winrateColor]
  rw [max_min_eq_self (by norm_num) (by norm_num), if_pos (by norm_num : (0.5 : ℝ) ≤ 1 / 2),
    show (8.5 : ℝ) * ((1 / 2 - 0.5) / 0.5) = 0 by norm_num, Real.tanh_zero,
    max_min_eq_self le_rfl (by norm_num), Real.zero_rpow (by norm_num)]
  norm_num [Prod.mk.injEq, round_255, round_zero']

lemma winrate_to_color_one : winrate_to_color 1 5.5 0.55 = (0, 255, 0) := by
  have hpos : 0 < Real.tanh (11 / 2) := tanh_pos_of_pos (by norm_num)
  have hle1 : Real.tanh (11 / 2) ≤ 1 := (tanh_lt_one' _).le
  have htau_le : (Real.tanh (11 / 2)) ^ ((0.55 : ℝ)) ≤ 1 :=
    Real.rpow_le_one hpos.le hle1 (by norm_num)
  have htau_gt : (509 / 510 : ℝ) < (Real.tanh (11 / 2)) ^ ((0.55 : ℝ)) :=
    calc (509 / 510 : ℝ) < Real.tanh (11 / 2) := lt_tanh_55
      _ = (Real.tanh (11 / 2)) ^ ((1 : ℝ)) := (Real.rpow_one _).symm
      _ ≤ (Real.tanh (11 / 2)) ^ ((0.55 : ℝ)) :=
          Real.rpow_le_rpow_of_exponent_ge hpos hle1 (by norm_num)
  simp only [winrate_to_color, lerp_rgb, lerp, YEL, GRN]
  rw [clamp01_eq_self (by norm_num) (by norm_num), if_pos (by norm_num : (0.5 : ℝ) ≤ 1),
    show (5.5 : ℝ) * ((1 - 0.5) / 0.5) = 11 / 2 by norm_num, clamp_tanh_eq (by norm_num)]
  push_cast
  simp only [Prod.mk.injEq]
  refine ⟨?_, ?_, ?_⟩
  · exact pyRound_in_halfopen (by nlinarith) (by nlinarith)
  · rw [show (255 : ℝ) + (255 - 255) * (Real.tanh (11 / 2)) ^ ((0.55 : ℝ)) = 255 by ring]
    exact pyRound_255
  · rw [show (0 : ℝ) + (0 - 0) * (Real.tanh (11 / 2)) ^ ((0.55 : ℝ)) = 0 by ring]
    exact pyRound_zero

lemma winrateColor_one : winrateColor 1 = (0, 255, 0) := by
  have hpos : 0 < Real.tanh (17 / 2) := tanh_pos_of_pos (by norm_num)
  have hle1 : Real.tanh (17 / 2) ≤ 1 := (tanh_lt_one' _).le
  have htau_le : (Real.tanh (17 / 2)) ^ ((0.45 : ℝ)) ≤ 1 :=
    Real.rpow_le_one hpos.le hle1 (by norm_num)
  have htau_gt : (509 / 510 : ℝ) < (Real.tanh (17 / 2)) ^ ((0.45 : ℝ)) :=
    calc (509 / 510 : ℝ) < Real.tanh (17 / 2) := lt_tanh_85
      _ = (Real.tanh (17 / 2)) ^ ((1 : ℝ)) := (Real.rpow_one _).symm
      _ ≤ (Real.tanh (17 / 2)) ^ ((0.45 : ℝ)) :=
          Real.rpow_le_rpow_of_exponent_ge hpos hle1 (by norm_num)
  simp only [winrateColor]
  rw [max_min_eq_self (by norm_num) (by norm_num), if_pos (by norm_num : (0.5 : ℝ) ≤ 1),
    show (8.5 : ℝ) * ((1 - 0.5) / 0.5) = 17 / 2 by norm_num,
    max_min_eq_self hpos.le hle1]
  simp only [Prod.mk.injEq]
  refine ⟨?_, ?_, ?_⟩
  · exact round_in_halfopen (by nlinarith) (by nlinarith)
  · rw [show (255 : ℝ) + (255 - 255) * (Real.tanh (17 / 2)) ^ ((0.45 : ℝ)) = 255 by ring]
    exact round_255
  · rw [show (0 : ℝ) + (0 - 0) * (Real.tanh (17 / 2)) ^ ((0.45 : ℝ)) = 0 by ring]
    exact round_zero'

lemma winrate_to_color_zero : winrate_to_color 0 5.5 0.55 = (255, 0, 0) := by
  have hpos : 0 < Real.tanh (11 / 2) := tanh_pos_of_pos (by norm_num)
  have hle1 : Real.tanh (11 / 2) ≤ 1 := (tanh_lt_one' _).le
  have htau_le : (Real.tanh (11 / 2)) ^ ((0.55 : ℝ)) ≤ 1 :=
    Real.rpow_le_one hpos.le hle1 (by norm_num)
  have htau_gt : (509 / 510 : ℝ) < (Real.tanh (11 / 2)) ^ ((0.55 : ℝ)) :=
    calc (509 / 510 : ℝ) < Real.tanh (11 / 2) := lt_tanh_55
      _ = (Real.tanh (11 / 2)) ^ ((1 : ℝ)) := (Real.rpow_one _).symm
      _ ≤ (Real.tanh (11 / 2)) ^ ((0.55 : ℝ)) :=
          Real.rpow_le_rpow_of_exponent_ge hpos hle1 (by norm_num)
  simp only [winrate_to_color, lerp_rgb, lerp, YEL, RED]
  rw [clamp01_eq_self le_rfl (by norm_num), if_neg (by norm_num : ¬ ((0.5 : ℝ) ≤ 0)),
    show (5.5 : ℝ) * ((0.5 - 0) / 0.5) = 11 / 2 by norm_num, clamp_tanh_eq (by norm_num)]
  push_cast
  simp only [Prod.mk.injEq]
  refine ⟨?_, ?_, ?_⟩
  · rw [show (255 : ℝ) + (255 - 255) * (Real.tanh (11 / 2)) ^ ((0.55 : ℝ)) = 255 by ring]
    exact pyRound_255
  · exact pyRound_in_halfopen (by nlinarith) (by nlinarith)
  · rw [show (0 : ℝ) + (0 - 0) * (Real.tanh (11 / 2)) ^ ((0.55 : ℝ)) = 0 by ring]
    exact pyRound_zero

lemma winrateColor_zero : winrateColor 0 = (255, 0, 0) := by
  have hpos : 0 < Real.tanh (17 / 2) := tanh_pos_of_pos (by norm_num)
  have hle1 : Real.tanh (17 / 2) ≤ 1 := (tanh_lt_one' _).le
  have htau_le : (Real.tanh (17 / 2)) ^ ((0.45 : ℝ)) ≤ 1 :=
    Real.rpow_le_one hpos.le hle1 (by norm_num)
  have htau_gt : (509 / 510 : ℝ) < (Real.tanh (17 / 2)) ^ ((0.45 : ℝ)) :=
    calc (509 / 510 : ℝ) < Real.tanh (17 / 2) := lt_tanh_85
      _ = (Real.tanh (17 / 2)) ^ ((1 : ℝ)) := (Real.rpow_one _).symm
      _ ≤ (Real.tanh (17 / 2)) ^ ((0.45 : ℝ)) :=
          Real.rpow_le_rpow_of_exponent_ge hpos hle1 (by norm_num)
  simp only [winrateColor]
  rw [max_min_eq_self le_rfl (by norm_num), if_neg (by norm_num : ¬ ((0.5 : ℝ) ≤ 0)),
    show (8.5 : ℝ) * ((0.5 - 0) / 0.5) = 17 / 2 by norm_num,
    max_min_eq_self hpos.le hle1]
  simp only [Prod.mk.injEq]
  refine ⟨?_, ?_, ?_⟩
  · rw [show (255 : ℝ) + (255 - 255) * (Real.tanh (17 / 2)) ^ ((0.45 : ℝ)) = 255 by ring]
    exact round_255
  · exact round_in_halfopen (by nlinarith) (by nlinarith)
  · rw [show (0 : ℝ) + (0 - 0) * (Real.tanh (17 / 2)) ^ ((0.45 : ℝ)) = 0 by ring]
    exact round_zero'

/-- Claim C8 amended: the client re-projection's winrateColor (k = 8.5,
gamma = 0.45) and the builder's winrate_to_color (k = 5.5, gamma = 0.55)
are two different tunings of the same diverging red-yellow-green law; they
agree only at the anchor winrates 0 (pure red), 1/2 (pure yellow) and 1
(pure green), not on all of [0, 1]. -/
theorem C8_color_anchor_agreement :
    winrateColor 0 = winrate_to_color 0 5.5 0.55 ∧
    winrateColor (1 / 2) = winrate_to_color (1 / 2) 5.5 0.55 ∧
    winrateColor 1 = winrate_to_color 1 5.5 0.55 :=
  ⟨winrateColor_zero.trans winrate_to_color_zero.symm,
   winrateColor_half.trans winrate_to_color_half.symm,
   winrateColor_one.trans winrate_to_color_one.symm⟩


/-- Claim C1: the spec promises that an empty archetype table yields an empty
graph without an error, for every matchup table.  The code instead raises:
`int(arch_sorted["overall_matches"].min())` converts the NaN produced by
`.min()` on an empty column, a ValueError.  This theorem evaluates the
builder at the failing input: for every matchup table, the build on an empty
archetype table is an error, never a graph. -/
theorem C1_empty_archetypes_error :
    ∀ matchups : List MatchRow,
      build_graph [] matchups
        = Except.error ("ValueError: cannot convert float NaN to integer") :=
  fun _ => rfl

/-- Claim C3: with only the row a="Y", b="X", winrate_a_vs_b=0.7, matches=100
present (and no "X"-vs-"Y" row), the output graph has exactly one edge for
the pair, with source "Y", destination "X", winrate 0.7 and matches 100:
the favored side of the single stored row becomes the source. -/
theorem C3_complement_inference :
    (edgesOf (build_graph archsXY msC3)).map projEdge
      = [("Y", "X", 7/10, 100, false, "to")] :=
  edges_eval_C3

lemma int_log_eq_of_bounds {r : ℚ} {e : ℤ} (h1 : (2:ℚ) ^ e ≤ r) (h2 : r < (2:ℚ) ^ (e + 1)) :
    Int.log 2 r = e := by
  have hr : 0 < r := lt_of_lt_of_le (zpow_pos (by norm_num) e) h1
  have ha : (2:ℚ) ^ (Int.log 2 r) ≤ r := Int.zpow_log_le_self (by norm_num) hr
  have hb : r < (2:ℚ) ^ (Int.log 2 r + 1) := Int.lt_zpow_succ_log_self (by norm_num) r
  have h3 : Int.log 2 r < e + 1 :=
    (zpow_lt_zpow_iff_right₀ (by norm_num : (1:ℚ) < 2)).mp (lt_of_le_of_lt ha h2)
  have h4 : e < Int.log 2 r + 1 :=
    (zpow_lt_zpow_iff_right₀ (by norm_num : (1:ℚ) < 2)).mp (lt_of_le_of_lt h1 hb)
  omega

lemma float64_of_bounds {r : ℚ} {e : ℤ} (h1 : (2:ℚ) ^ e ≤ r) (h2 : r < (2:ℚ) ^ (e + 1)) :
    float64 r = roundToGrid (e - 52) r := by
  have hr : 0 < r := lt_of_lt_of_le (zpow_pos (by norm_num) e) h1
  rw [float64, if_neg (ne_of_gt hr), if_pos hr, int_log_eq_of_bounds h1 h2]

lemma rndHalfEven_of_ne {q : ℚ} (h : Int.fract q ≠ 1 / 2) : rndHalfEven q = round q := by
  rw [rndHalfEven, if_neg h]

/- Concrete doubles.  0.5 is exact; the doubles nearest 0.005, 0.504,
   0.505, 0.506 are the 2^-60- and 2^-53-grid values below. -/

lemma float64_half : float64 (1 / 2) = 1 / 2 := by
  rw [float64_of_bounds (e := -1) (by norm_num) (by norm_num)]
  rw [roundToGrid, show (1/2 : ℚ) * 2 ^ (-(-1 - 52 : ℤ)) = ((4503599627370496 : ℤ) : ℚ) by
    norm_num]
  rw [rndHalfEven_of_ne (by rw [Int.fract_intCast]; norm_num), round_intCast]
  norm_num

lemma float64_eps : float64 EPS_TIE = 5764607523034235 / 1152921504606846976 := by
  rw [show EPS_TIE = 1/200 by norm_num [EPS_TIE]]
  rw [float64_of_bounds (e := -8) (by norm_num) (by norm_num)]
  rw [roundToGrid, show (1/200 : ℚ) * 2 ^ (-(-8 - 52 : ℤ)) = 144115188075855872/25 by norm_num]
  rw [rndHalfEven_of_ne (by rw [Int.fract]; norm_num)]
  rw [round_eq, show (144115188075855872/25 : ℚ) + 1/2 = 288230376151711769/50 by norm_num]
  norm_num

lemma float64_505 : float64 (101 / 200) = 4548635623644201 / 9007199254740992 := by
  rw [float64_of_bounds (e := -1) (by norm_num) (by norm_num)]
  rw [roundToGrid, show (101/200 : ℚ) * 2 ^ (-(-1 - 52 : ℤ)) = 113715890591105024/25 by
    norm_num]
  rw [rndHalfEven_of_ne (by rw [Int.fract]; norm_num)]
  rw [round_eq, show (113715890591105024/25 : ℚ) + 1/2 = 227431781182210073/50 by norm_num]
  norm_num

lemma float64_504 : float64 (63 / 125) = 4539628424389460 / 9007199254740992 := by
  rw [float64_of_bounds (e := -1) (by norm_num) (by norm_num)]
  rw [roundToGrid, show (63/125 : ℚ) * 2 ^ (-(-1 - 52 : ℤ)) = 567453553048682496/125 by
    norm_num]
  rw [rndHalfEven_of_ne (by rw [Int.fract]; norm_num)]
  rw [round_eq, show (567453553048682496/125 : ℚ) + 1/2 = 1134907106097365117/250 by norm_num]
  norm_num

lemma float64_506 : float64 (253 / 500) = 4557642822898942 / 9007199254740992 := by
  rw [float64_of_bounds (e := -1) (by norm_num) (by norm_num)]
  rw [roundToGrid, show (253/500 : ℚ) * 2 ^ (-(-1 - 52 : ℤ)) = 2278821411449470976/500 by
    norm_num]
  rw [rndHalfEven_of_ne (by rw [Int.fract]; norm_num)]
  rw [round_eq, show (2278821411449470976/500 : ℚ) + 1/2 = 2278821411449471226/500 by norm_num]
  norm_num

/- The three subtraction results are exactly representable (their scaled
   significands are integers), so the rounded subtraction returns them. -/

lemma float64_diff504 :
    float64 (4539628424389460 / 9007199254740992 - 1 / 2)
      = 36028797018964 / 9007199254740992 := by
  rw [show (4539628424389460 / 9007199254740992 - 1/2 : ℚ) = 36028797018964/9007199254740992 by
    norm_num]
  rw [float64_of_bounds (e := -8) (by norm_num) (by norm_num)]
  rw [roundToGrid, show (36028797018964/9007199254740992 : ℚ) * 2 ^ (-(-8 - 52 : ℤ))
      = ((4611686018427392 : ℤ) : ℚ) by norm_num]
  rw [rndHalfEven_of_ne (by rw [Int.fract_intCast]; norm_num), round_intCast]
  norm_num

lemma float64_diff505 :
    float64 (4548635623644201 / 9007199254740992 - 1 / 2)
      = 45035996273705 / 9007199254740992 := by
  rw [show (4548635623644201 / 9007199254740992 - 1/2 : ℚ) = 45035996273705/9007199254740992 by
    norm_num]
  rw [float64_of_bounds (e := -8) (by norm_num) (by norm_num)]
  rw [roundToGrid, show (45035996273705/9007199254740992 : ℚ) * 2 ^ (-(-8 - 52 : ℤ))
      = ((5764607523034240 : ℤ) : ℚ) by norm_num]
  rw [rndHalfEven_of_ne (by rw [Int.fract_intCast]; norm_num), round_intCast]
  norm_num

lemma float64_diff506 :
    float64 (4557642822898942 / 9007199254740992 - 1 / 2)
      = 54043195528446 / 9007199254740992 := by
  rw [show (4557642822898942 / 9007199254740992 - 1/2 : ℚ) = 54043195528446/9007199254740992 by
    norm_num]
  rw [float64_of_bounds (e := -8) (by norm_num) (by norm_num)]
  rw [roundToGrid, show (54043195528446/9007199254740992 : ℚ) * 2 ^ (-(-8 - 52 : ℤ))
      = ((6917529027641088 : ℤ) : ℚ) by norm_num]
  rw [rndHalfEven_of_ne (by rw [Int.fract_intCast]; norm_num), round_intCast]
  norm_num

lemma isNeutralF_504 : isNeutralF (float64 (63 / 125)) = true := by
  rw [isNeutralF, float64_504, float64_half, float64_eps, float64_diff504,
    decide_eq_true_eq, abs_of_nonneg (by norm_num)]
  norm_num

lemma isNeutralF_505 : isNeutralF (float64 (101 / 200)) = false := by
  rw [isNeutralF, float64_505, float64_half, float64_eps, float64_diff505]
  rw [decide_eq_false_iff_not, abs_of_nonneg (by norm_num)]
  norm_num

lemma isNeutralF_506 : isNeutralF (float64 (253 / 500)) = false := by
  rw [isNeutralF, float64_506, float64_half, float64_eps, float64_diff506]
  rw [decide_eq_false_iff_not, abs_of_nonneg (by norm_num)]
  norm_num

/-- Claim C6 counterexample: the claim says the neutrality boundary is
inclusive at exactly 0.005, so a winrate of exactly 0.505 is classified
neutral.  The program compares IEEE binary64 doubles: the double nearest
0.505 minus 0.5 is 45035996273705/2^53 ≈ 0.0050000000000000044, strictly
above the double nearest 0.005 (5764607523034235/2^60), so the program
classifies a 0.505 winrate as NOT neutral. -/
theorem C6_counterexample_float_boundary :
    isNeutralF (float64 (101 / 200)) = false :=
  isNeutralF_505

/-- Claim C6 amended: the builder classifies a matchup as neutral when
abs(winrate − 0.5) <= 0.005 evaluated in binary64 floating point: a
winrate of 0.504 is neutral and 0.506 is not, but at exactly 0.505 the
comparison fails — the double nearest 0.505 differs from 0.5 by slightly
more than the double nearest 0.005 — so 0.505 is classified NOT neutral;
the boundary is exclusive at the decimal 0.505, not inclusive. -/
theorem C6_neutral_boundary_float :
    isNeutralF (float64 (63 / 125)) = true ∧
    isNeutralF (float64 (253 / 500)) = false ∧
    isNeutralF (float64 (101 / 200)) = false :=
  ⟨isNeutralF_504, isNeutralF_506, isNeutralF_505⟩

/- Shared bounds helpers for the scaling library. -/

lemma clamp_mem {x lo hi : ℝ} (h : lo ≤ hi) : lo ≤ clamp x lo hi ∧ clamp x lo hi ≤ hi :=
  ⟨le_max_left _ _, max_le h (min_le_left _ _)⟩

lemma clamp_mono {x y lo hi : ℝ} (h : x ≤ y) : clamp x lo hi ≤ clamp y lo hi :=
  max_le_max le_rfl (min_le_min le_rfl h)

lemma affine_mem {x omin omax : ℝ} (hx0 : 0 ≤ x) (hx1 : x ≤ 1) (ho : omin ≤ omax) :
    omin ≤ omin + x * (omax - omin) ∧ omin + x * (omax - omin) ≤ omax :=
  ⟨by nlinarith, by nlinarith⟩

lemma scale_log_bounds {value vmin vmax out_min out_max : ℝ} (hv : 0 < vmin)
    (hvv : vmin ≤ vmax) (ho : out_min ≤ out_max) :
    out_min ≤ scale_log value vmin vmax out_min out_max
      ∧ scale_log value vmin vmax out_min out_max ≤ out_max := by
  have hvmax : 0 < vmax := lt_of_lt_of_le hv hvv
  have hc := clamp_mem (x := value) hvv
  have hcpos : 0 < clamp value vmin vmax := lt_of_lt_of_le hv hc.1
  simp only [scale_log]
  split_ifs with h1 h2
  · exact ⟨le_rfl, ho⟩
  · have ha : Real.logb 10 vmin ≤ Real.logb 10 (clamp value vmin vmax) :=
      Real.logb_le_logb_of_le (by norm_num) hv hc.1
    have hb : Real.logb 10 (clamp value vmin vmax) ≤ Real.logb 10 vmax :=
      Real.logb_le_logb_of_le (by norm_num) hcpos hc.2
    have hab : Real.logb 10 vmin ≤ Real.logb 10 vmax :=
      Real.logb_le_logb_of_le (by norm_num) hv hvv
    have hlt : Real.logb 10 vmin < Real.logb 10 vmax := lt_of_le_of_ne hab (Ne.symm h2)
    exact affine_mem (div_nonneg (by linarith) (by linarith))
      ((div_le_one (by linarith)).mpr (by linarith)) ho
  · simp only [zero_mul, add_zero]
    exact ⟨le_rfl, ho⟩

lemma scale_sqrt_bounds {value vmin vmax out_min out_max : ℝ} (hv : 0 < vmin)
    (hvv : vmin ≤ vmax) (ho : out_min ≤ out_max) :
    out_min ≤ scale_sqrt value vmin vmax out_min out_max
      ∧ scale_sqrt value vmin vmax out_min out_max ≤ out_max := by
  have hvmax : 0 < vmax := lt_of_lt_of_le hv hvv
  have hc := clamp_mem (x := value) hvv
  simp only [scale_sqrt]
  split_ifs with h1 h2
  · exact ⟨le_rfl, ho⟩
  · have ha : Real.sqrt vmin ≤ Real.sqrt (clamp value vmin vmax) := Real.sqrt_le_sqrt hc.1
    have hb : Real.sqrt (clamp value vmin vmax) ≤ Real.sqrt vmax := Real.sqrt_le_sqrt hc.2
    have hab : Real.sqrt vmin ≤ Real.sqrt vmax := Real.sqrt_le_sqrt hvv
    have hlt : Real.sqrt vmin < Real.sqrt vmax := lt_of_le_of_ne hab (Ne.symm h2)
    exact affine_mem (div_nonneg (by linarith) (by linarith))
      ((div_le_one (by linarith)).mpr (by linarith)) ho
  · simp only [zero_mul, add_zero]
    exact ⟨le_rfl, ho⟩

lemma scale_power_bounds {value vmin vmax out_min out_max power : ℝ}
    (hvv : vmin ≤ vmax) (ho : out_min ≤ out_max) (hp : 0 ≤ power) :
    out_min ≤ scale_power value vmin vmax out_min out_max power
      ∧ scale_power value vmin vmax out_min out_max power ≤ out_max := by
  have hc := clamp_mem (x := value) hvv
  simp only [scale_power]
  split_ifs with h1 h2
  · exact ⟨le_rfl, ho⟩
  · have hlt : vmin < vmax := lt_of_le_of_ne hvv (Ne.symm h2)
    have hx0 : 0 ≤ (clamp value vmin vmax - vmin) / (vmax - vmin) :=
      div_nonneg (by linarith [hc.1]) (by linarith)
    have hx1 : (clamp value vmin vmax - vmin) / (vmax - vmin) ≤ 1 :=
      (div_le_one (by linarith)).mpr (by linarith [hc.2])
    exact affine_mem (Real.rpow_nonneg hx0 _) (Real.rpow_le_one hx0 hx1 hp) ho
  · exact affine_mem (Real.rpow_nonneg le_rfl _) (Real.rpow_le_one le_rfl zero_le_one hp) ho

/-- Claim C7 counterexample: the claim promises every scaling function stays
within [rangeMin, rangeMax] for every real input whenever
rangeMin ≤ rangeMax.  With domain [-1, 10] and range [0, 1] (so 0 ≤ 1), the
value 1/2 passes the positivity guard, survives the clamp, and is sent by
scale_log to log10(1/2) < 0, strictly below rangeMin. -/
theorem C7_counterexample_out_of_range :
    (0 : ℝ) ≤ 1 ∧ scale_log (1/2) (-1) 10 0 1 < 0 := by
  refine ⟨zero_le_one, ?_⟩
  have hlog : Real.logb 10 ((1:ℝ)/2) < 0 :=
    Real.logb_neg (by norm_num) (by norm_num) (by norm_num)
  have h10 : Real.logb 10 (10:ℝ) = 1 := Real.logb_self_eq_one (by norm_num)
  unfold scale_log clamp
  norm_num [h10]
  linarith

/-- Claim C7 amended: when the numeric domain satisfies 0 < domainMin ≤
domainMax (so the Python log10/sqrt calls stay in their domain and agree
with the real functions), rangeMin ≤ rangeMax, and the power-curve exponent
is positive, every scaling function returns a value within
[rangeMin, rangeMax]; any non-positive value maps to rangeMin, and the
degenerate domain domainMin = domainMax falls back to rangeMin with no
division by zero. -/
theorem C7_scaling_bounded (value vmin vmax out_min out_max power : ℝ)
    (hv : 0 < vmin) (hvv : vmin ≤ vmax) (ho : out_min ≤ out_max) (hp : 0 < power) :
    (out_min ≤ scale_log value vmin vmax out_min out_max
      ∧ scale_log value vmin vmax out_min out_max ≤ out_max)
    ∧ (out_min ≤ scale_sqrt value vmin vmax out_min out_max
      ∧ scale_sqrt value vmin vmax out_min out_max ≤ out_max)
    ∧ (out_min ≤ scale_power value vmin vmax out_min out_max power
      ∧ scale_power value vmin vmax out_min out_max power ≤ out_max)
    ∧ (value ≤ 0 → scale_log value vmin vmax out_min out_max = out_min
      ∧ scale_sqrt value vmin vmax out_min out_max = out_min
      ∧ scale_power value vmin vmax out_min out_max power = out_min)
    ∧ (vmin = vmax → scale_log value vmin vmax out_min out_max = out_min
      ∧ scale_sqrt value vmin vmax out_min out_max = out_min
      ∧ scale_power value vmin vmax out_min out_max power = out_min) := by
  refine ⟨scale_log_bounds hv hvv ho, scale_sqrt_bounds hv hvv ho,
    scale_power_bounds hvv ho hp.le, fun hval => ?_, fun heq => ?_⟩
  · unfold scale_log scale_sqrt scale_power
    rw [if_pos hval, if_pos hval, if_pos hval]
    exact ⟨rfl, rfl, rfl⟩
  · subst heq
    by_cases hval : value ≤ 0
    · unfold scale_log scale_sqrt scale_power
      rw [if_pos hval, if_pos hval, if_pos hval]
      exact ⟨rfl, rfl, rfl⟩
    · unfold scale_log scale_sqrt scale_power
      rw [if_neg hval, if_neg hval, if_neg hval, if_pos hv, if_pos hv, if_pos hv, if_pos hv]
      simp [Real.zero_rpow hp.ne.symm]

/-- Closed witness for C7_scaling_bounded at value = 5, domain [1, 10],
range [0, 1], power = 1. -/
theorem C7_scaling_bounded_witness :
    (0:ℝ) < 1 ∧ (1:ℝ) ≤ 10 ∧ (0:ℝ) ≤ 1 ∧ (0:ℝ) < 1 ∧
    ((0 ≤ scale_log 5 1 10 0 1 ∧ scale_log 5 1 10 0 1 ≤ 1)
      ∧ (0 ≤ scale_sqrt 5 1 10 0 1 ∧ scale_sqrt 5 1 10 0 1 ≤ 1)
      ∧ (0 ≤ scale_power 5 1 10 0 1 1 ∧ scale_power 5 1 10 0 1 1 ≤ 1)
      ∧ ((5:ℝ) ≤ 0 → scale_log 5 1 10 0 1 = 0 ∧ scale_sqrt 5 1 10 0 1 = 0
        ∧ scale_power 5 1 10 0 1 1 = 0)
      ∧ ((1:ℝ) = 10 → scale_log 5 1 10 0 1 = 0 ∧ scale_sqrt 5 1 10 0 1 = 0
        ∧ scale_power 5 1 10 0 1 1 = 0)) :=
  ⟨by norm_num, by norm_num, by norm_num, by norm_num,
    C7_scaling_bounded 5 1 10 0 1 1 (by norm_num) (by norm_num) (by norm_num) (by norm_num)⟩

/-- Claim C10: for a fixed domain with domainMin < domainMax, a range with
rangeMin ≤ rangeMax and a positive exponent, scale_power is monotone
non-decreasing in its value argument. -/
theorem C10_scale_power_monotone (vmin vmax out_min out_max power v1 v2 : ℝ)
    (hvv : vmin < vmax) (ho : out_min ≤ out_max) (hp : 0 < power) (hv : v1 ≤ v2) :
    scale_power v1 vmin vmax out_min out_max power
      ≤ scale_power v2 vmin vmax out_min out_max power := by
  by_cases h1 : v1 ≤ 0
  · have hl : scale_power v1 vmin vmax out_min out_max power = out_min := by
      simp only [scale_power]
      rw [if_pos h1]
    rw [hl]
    exact (scale_power_bounds hvv.le ho hp.le).1
  · have h2 : ¬ v2 ≤ 0 := fun h => h1 (le_trans hv h)
    have hc1 := clamp_mem (x := v1) hvv.le
    have hne : vmax ≠ vmin := Ne.symm hvv.ne
    simp only [scale_power]
    rw [if_neg h1, if_neg h2]
    simp only [if_pos hne]
    have hx0 : 0 ≤ (clamp v1 vmin vmax - vmin) / (vmax - vmin) :=
      div_nonneg (by linarith [hc1.1]) (by linarith)
    have hxle : (clamp v1 vmin vmax - vmin) / (vmax - vmin)
        ≤ (clamp v2 vmin vmax - vmin) / (vmax - vmin) :=
      (div_le_div_right (by linarith)).mpr (sub_le_sub_right (clamp_mono hv) _)
    apply add_le_add_left
    exact mul_le_mul_of_nonneg_right (Real.rpow_le_rpow hx0 hxle hp.le) (by linarith)

/-- Closed witness for C10_scale_power_monotone at domain [1, 2], range
[0, 10], power = 2, values 1 ≤ 2. -/
theorem C10_scale_power_monotone_witness :
    (1:ℝ) < 2 ∧ (0:ℝ) ≤ 10 ∧ (0:ℝ) < 2 ∧ (1:ℝ) ≤ 2 ∧
    scale_power 1 1 2 0 10 2 ≤ scale_power 2 1 2 0 10 2 :=
  ⟨by norm_num, by norm_num, by norm_num, by norm_num,
    C10_scale_power_monotone 1 2 0 10 2 1 2 (by norm_num) (by norm_num) (by norm_num)
      (by norm_num)⟩

end Theorems

end MTG
